import Mathlib

/-!
Server-side template renderer (`go/ssr`): embedding and checked properties.

Shallow embedding of `go/ssr/ssr.scaffold.go` and `go/ssr/components.scaffold.go`.

Modelling choices
* A Go `string` is a `List Char` (`Str`).  `strings.LastIndex` with a one-character needle
  is modelled on character positions; the source only compares two such positions, and
  the order of character positions is the order of byte positions.
* The package variable `partID` is threaded explicitly: every function that reads or writes
  it takes the current value and returns the new one inside an `Outcome`.  Every write in
  the package is `= 0`, `++` or the restore of a saved value, so the counter is a `Nat`.
* A Go panic is the `Outcome.failed` result; it carries the counter at the moment of the
  panic, so that the deferred restore of the entry points is an explicit step.
* A `View` closure is defunctionalised: `View.html literals values` is the closure returned
  by `HTML(literals, values...)`, and `View.call` is its body.  Interpolated values are
  finite trees.
* A component, and the setup function it wraps, is Go code that runs when it is applied:
  it can invoke views, which moves the counter, and it can panic.  Applying one is
  therefore a run from a counter to an `Outcome View`.
-/

namespace SSR

/-- Go strings, as sequences of characters. -/
abbrev Str := List Char

/-! ## Types de base -/

/-- The type `DomSetup func(root any) func()`: a hydration callback.  The renderer never
calls one, it only carries them, so a callback is represented by an identifying tag. -/
structure DomSetup where
  tag : Nat
deriving DecidableEq, Repr

/-- The struct `VNode`. -/
structure VNode where
  HTML : Str
  Setups : List DomSetup
deriving DecidableEq, Repr

mutual
/-- The type `View func() VNode`, by the ways a value of it comes to be. -/
inductive View where
  /-- the closure returned by `HTML(literals, values...)` -/
  | html (literals : List Str) (values : List Value)
  /-- a hand-written view that returns a fixed node and does not touch the counter -/
  | native (n : VNode)
  /-- a view whose invocation panics (a nil `View`, or a hand-written body that panics) -/
  | failing
/-- The dynamic shapes of an interpolated `any` that the resolver tells apart. -/
inductive Value where
  /-- the nil interface value -/
  | nil
  /-- a value of dynamic type `bool` -/
  | bool (b : Bool)
  /-- any value reaching `fmt.Sprint`, carried as the text `fmt.Sprint` gives for it -/
  | scalar (text : Str)
  /-- a value with a `Value() any` method, and what the method returns -/
  | valueLike (current : Value)
  /-- a value of dynamic type `View` -/
  | view (v : View)
  /-- a `VNode`, or a non-nil `*VNode` -/
  | vnode (n : VNode)
  /-- a nil `*VNode` -/
  | nilVNodePtr
  /-- a function with no parameter and one result, and what a call returns -/
  | func (result : Value)
  /-- a slice or an array -/
  | slice (elems : List Value)
end

/-- Result of running code that uses the package counter: either it returns `val`, or it
panics; in both cases `partID` is the value of the counter at that moment. -/
inductive Outcome (α : Type) where
  | ok (val : α) (partID : Nat)
  | failed (msg : String) (partID : Nat)
deriving DecidableEq, Repr

/-- The counter after the run. -/
def Outcome.counter {α : Type} : Outcome α → Nat
  | .ok _ p => p
  | .failed _ p => p

/-- The returned value, when the run did not panic. -/
def Outcome.result {α : Type} : Outcome α → Option α
  | .ok a _ => some a
  | .failed _ _ => none

/-! ## Helpers type-check -/

/-- Source `isVNode`: the type switch `case VNode, *VNode`. -/
def isVNode : Value → Bool
  | .vnode _ => true
  | .nilVNodePtr => true
  | _ => false

/-- Source `isView`: the type assertion `v.(View)`. -/
def isView : Value → Bool
  | .view _ => true
  | _ => false

/-! ## String helpers of the Go standard library -/

/-- `strings.LastIndex(s, string(c))`: position of the last `c` in `s`, or `-1`. -/
def lastIndex : Str → Char → Int
  | [], _ => -1
  | x :: xs, c =>
    let r := lastIndex xs c
    if 0 ≤ r then r + 1 else if x = c then 0 else -1

/-- `strings.Contains(s, sub)`. -/
def contains : Str → Str → Bool
  | [], sub => sub.isEmpty
  | c :: cs, sub => sub.isPrefixOf (c :: cs) || contains cs sub

/-- `strconv.Itoa` and the verb `%d` on a non-negative integer. -/
def itoa (n : Nat) : Str := Nat.toDigits 10 n

/-- The class `\s` of Go regular expressions: tab, newline, form feed, carriage return,
space. -/
def isSpace (c : Char) : Bool :=
  c == Char.ofNat 9 || c == Char.ofNat 10 || c == Char.ofNat 12 || c == Char.ofNat 13 || c == ' '

/-- The class `[a-zA-Z_:]`. -/
def isNameStart (c : Char) : Bool :=
  c.isAlpha || c == '_' || c == ':'

/-- The class `[-a-zA-Z0-9_:.]`. -/
def isNameChar (c : Char) : Bool :=
  c == '-' || c.isAlpha || c.isDigit || c == '_' || c == ':' || c == '.'

/-- The quote class of the pattern: double quote or apostrophe. -/
def isQuote (c : Char) : Bool :=
  c == Char.ofNat 34 || c == Char.ofNat 39

/-- Source `attrRegex.FindStringSubmatch(current)`, for the pattern
`([a-zA-Z_:][-a-zA-Z0-9_:.]*)\s*=\s*["']?$`: `none` when there is no match, else the
first capture group `m[1]`.

The pattern is anchored at the end of the text, so it is matched from the end: an
optional quote, blanks, `=`, blanks, then the run of name characters; the leftmost match
starts the name at the first name-start character of that run. -/
def attrRegexFind (current : Str) : Option Str :=
  let r := current.reverse
  let r := match r with
    | c :: t => if isQuote c then t else c :: t
    | [] => []
  match r.dropWhile isSpace with
  | '=' :: t =>
    let run := ((t.dropWhile isSpace).takeWhile isNameChar).reverse
    match run.dropWhile (fun c => !isNameStart c) with
    | [] => none
    | n :: ns => some (n :: ns)
  | _ => none

/-- The test `strings.LastIndex(current, "<") > strings.LastIndex(current, ">")`. -/
def inTag (current : Str) : Bool :=
  decide (lastIndex current '<' > lastIndex current '>')

/-- The flag `inAttribute` that the loop of `HTML` computes from the buffer so far. -/
def inAttribute (current : Str) : Bool :=
  inTag current && (attrRegexFind current).isSome

/-- The comment text `"text-part-%d"` of a content marker. -/
def markerName (partID : Nat) : Str := "text-part-".toList ++ itoa partID

/-! ## Résolution scalaire, and the `html` tag -/

mutual
/-- Invocation `view()` of a `View`.  For the closure returned by `HTML` this is the body
of that closure: it runs the loop from an empty buffer and wraps the buffer in a `VNode`
with `Setups: nil`. -/
def View.call : View → Nat → Outcome VNode
  | .html literals values, partID =>
    match htmlLoop values literals [] partID with
    | .ok out p => .ok ⟨out, []⟩ p
    | .failed m p => .failed m p
  | .native n, partID => .ok n partID
  | .failing, partID => .failed "view: panic" partID
/-- The loop `for i, s := range literals` of `HTML`, from index `i` on: the arguments are
`values[i:]`, `literals[i:]`, the buffer `out` and the counter. -/
def htmlLoop : List Value → List Str → Str → Nat → Outcome Str
  | _, [], out, partID => .ok out partID
  | [], s :: ls, out, partID =>
    -- `if i >= len(values) { continue }` for this and every later literal
    .ok (ls.foldl (fun o l => o ++ l) (out ++ s)) partID
  | expr :: vs, s :: ls, out, partID =>
    let out := out ++ s
    -- `resolve` names the call `resolveScalar(expr)`; it runs only where a branch applies it
    let resolve := resolveScalar expr
    match expr with
    | .view v =>
      -- View / VNode direct
      match View.call v partID with
      | .ok vnode p => htmlLoop vs ls (out ++ vnode.HTML) p
      | .failed m p => .failed m p
    | .vnode n => htmlLoop vs ls (out ++ n.HTML) partID
    | .nilVNodePtr => .failed "asVNode: nil pointer dereference" partID
    | _ =>
      let current := out
      if inAttribute current then
        if contains s "on".toList then
          -- `partID = 0; partID++`
          let p := 0
          let p := p + 1
          htmlLoop vs ls (out ++ ("ev-part-".toList ++ itoa p)) p
        else
          -- `partID++` comes before the call of `resolveScalar`
          match resolve (partID + 1) with
          | .ok scalar p => htmlLoop vs ls (out ++ scalar) p
          | .failed m p => .failed m p
      else
        match resolve partID with
        | .ok text p =>
          -- the marker is formatted from the counter as it is after the resolution
          let marker := markerName p
          htmlLoop vs ls
            (out ++ ("<!--s".toList ++ marker ++ "-->".toList) ++ text
              ++ ("<!--e".toList ++ marker ++ "-->".toList))
            (p + 1)
        | .failed m p => .failed m p
/-- Source `resolveScalar`. -/
def resolveScalar : Value → Nat → Outcome Str
  | .nil, partID => .ok [] partID
  | .bool false, partID => .ok [] partID
  | .view v, partID =>
    match View.call v partID with
    | .ok vnode p => .ok vnode.HTML p
    | .failed m p => .failed m p
  | .vnode n, partID => .ok n.HTML partID
  | .nilVNodePtr, partID => .failed "asVNode: nil pointer dereference" partID
  | .valueLike current, partID => resolveScalar current partID
  | .func result, partID => resolveScalar result partID
  | .slice elems, partID => resolveScalarElems elems [] partID
  | .bool true, partID => .ok "true".toList partID
  | .scalar text, partID => .ok text partID
/-- The loop over the elements of a slice in `resolveScalar`; `b` is the builder. -/
def resolveScalarElems : List Value → Str → Nat → Outcome Str
  | [], b, partID => .ok b partID
  | x :: xs, b, partID =>
    match resolveScalar x partID with
    | .ok t p => resolveScalarElems xs (b ++ t) p
    | .failed m p => .failed m p
end

/-- Source `HTML(literals, values...)`: it only builds the closure. -/
def HTML (literals : List Str) (values : List Value) : View :=
  View.html literals values

/-! ## Résolution en { html, setups } -/

/-- The struct `resolved`. -/
structure resolved where
  HTML : Str
  Setups : List DomSetup
deriving DecidableEq, Repr

mutual
/-- Source `resolveToHTMLAndSetups`. -/
def resolveToHTMLAndSetups : Value → Nat → Outcome resolved
  | .nil, partID => .ok ⟨[], []⟩ partID
  | .bool false, partID => .ok ⟨[], []⟩ partID
  | .valueLike current, partID => resolveToHTMLAndSetups current partID
  | .view v, partID =>
    match View.call v partID with
    | .ok vnode p => .ok ⟨vnode.HTML, [] ++ vnode.Setups⟩ p
    | .failed m p => .failed m p
  | .vnode n, partID => .ok ⟨n.HTML, [] ++ n.Setups⟩ partID
  | .nilVNodePtr, partID => .failed "asVNode: nil pointer dereference" partID
  | .func result, partID => resolveToHTMLAndSetups result partID
  | .slice elems, partID => resolveToHTMLAndSetupsElems elems [] [] partID
  | .bool true, partID => .ok ⟨"true".toList, []⟩ partID
  | .scalar text, partID => .ok ⟨text, []⟩ partID
/-- The loop over the elements of a slice in `resolveToHTMLAndSetups`; `html` is the
builder and `setups` the slice of callbacks gathered so far. -/
def resolveToHTMLAndSetupsElems :
    List Value → Str → List DomSetup → Nat → Outcome resolved
  | [], html, setups, partID => .ok ⟨html, setups⟩ partID
  | x :: xs, html, setups, partID =>
    match resolveToHTMLAndSetups x partID with
    | .ok r p =>
      resolveToHTMLAndSetupsElems xs (html ++ r.HTML)
        (if r.Setups.length > 0 then setups ++ r.Setups else setups) p
    | .failed m p => .failed m p
end

/-! ## Components and the render entry points -/

/-- The generic type `Component[P] func(P) View`.  Applying a component to props runs
its body: from the counter at that moment it returns the View and the new counter, or it
panics. -/
def Component (P : Type) : Type := P → Nat → Outcome View

/-- Source `DefineComponent`: the component applies `setup` to the props. -/
def DefineComponent {P : Type} (setup : P → Nat → Outcome View) : Component P :=
  fun props => setup props

/-- What the parameter `compOrView any` of `RenderToString` can hold.  `A` is the Lean
type standing for Go's `any` as a props type. -/
inductive CompOrView (A : Type) : Type 1 where
  /-- a value of one of the shapes of `Value` (a `View` among them) -/
  | value (v : Value)
  /-- a value of dynamic type `Component[any]` -/
  | component (c : Component A)
  /-- a value of dynamic type `Component[P]` for a props type `P` other than `any` -/
  | componentOf (P : Type) (c : Component P)

/-- Source `RenderToString`.  The deferred `partID = prevPartID` runs on return and on
panic alike. -/
def RenderToString {A : Type} (compOrView : CompOrView A) (props : A) (partID : Nat) :
    Outcome Str :=
  let prevPartID := partID
  let partID := 0
  let body : Outcome VNode :=
    match compOrView with
    | .value (.view v) => View.call v partID
    | .component c =>
      -- `view = v(props)` runs after the reset, then `view()`
      match c props partID with
      | .ok view p => View.call view p
      | .failed m p => .failed m p
    | _ => .failed "RenderToString: expected View or Component" partID
  match body with
  | .ok vnode _ => .ok vnode.HTML prevPartID
  | .failed m _ => .failed m prevPartID

/-- Source `RenderComponentToString`. -/
def RenderComponentToString {P : Type} (comp : Component P) (props : P) (partID : Nat) :
    Outcome Str :=
  let prevPart := partID
  let partID := 0
  -- `comp(props)()`: the component is applied after the reset, then its View is invoked
  let body : Outcome VNode :=
    match comp props partID with
    | .ok view p => View.call view p
    | .failed m p => .failed m p
  match body with
  | .ok vnode _ => .ok vnode.HTML prevPart
  | .failed m _ => .failed m prevPart

/-! ## Vocabulary of the properties -/

/-- Whether a text holds the opening of a hydration-marker comment, `<!--stext-part-` or
`<!--etext-part-`. -/
def hasMarker (t : Str) : Bool :=
  contains t "<!--stext-part-".toList || contains t "<!--etext-part-".toList

mutual
/-- Values built from nil, booleans, scalars, reactive containers, factories and slices of
these: no `View` and no `VNode` at any depth. -/
def Value.plain : Value → Bool
  | .nil => true
  | .bool _ => true
  | .scalar _ => true
  | .valueLike current => current.plain
  | .view _ => false
  | .vnode _ => false
  | .nilVNodePtr => false
  | .func result => result.plain
  | .slice elems => plainElems elems
/-- Every element of the list is `plain`. -/
def plainElems : List Value → Bool
  | [] => true
  | x :: xs => x.plain && plainElems xs
end

mutual
/-- The texts of the scalar leaves of a value, from left to right (`true` is the leaf
text of the boolean true; nil and false have none). -/
def Value.leafTexts : Value → List Str
  | .nil => []
  | .bool false => []
  | .bool true => ["true".toList]
  | .scalar text => [text]
  | .valueLike current => current.leafTexts
  | .view _ => []
  | .vnode _ => []
  | .nilVNodePtr => []
  | .func result => result.leafTexts
  | .slice elems => leafTextsElems elems
/-- The leaf texts of the elements of a list, in order. -/
def leafTextsElems : List Value → List Str
  | [] => []
  | x :: xs => x.leafTexts ++ leafTextsElems xs
end

/-- The value of an outcome seen through `f`; the counter and a panic are kept. -/
def Outcome.mapVal {α β : Type} (f : α → β) : Outcome α → Outcome β
  | .ok a p => .ok (f a) p
  | .failed m p => .failed m p

/-- Whether `compOrView` is a `View` or a `Component[any]`: the values that the type
switch of `RenderToString` has a case for. -/
def CompOrView.accepted {A : Type} : CompOrView A → Bool
  | .value (.view _) => true
  | .component _ => true
  | _ => false

/-- The props type `titleProps struct{ Title string }` of `components.scaffold_test.go`. -/
structure titleProps where
  Title : Str

/-- The Go expression `RenderToString(setup(p), nil)`: the argument `setup(p)` is
evaluated first, from the counter of the caller, and `RenderToString` is then called on
the View it returned. -/
def RenderToStringOfSetup {P : Type} (setup : P → Nat → Outcome View) (p : P)
    (partID : Nat) : Outcome Str :=
  match setup p partID with
  | .ok view q => RenderToString (.value (.view view)) Value.nil q
  | .failed m q => .failed m q

/-- A setup function that invokes a child view while it builds its View:
`func(p string) View { child := HTML(["<b>", "</b>"], p)();
return HTML(["<p>", "</p><i>", "</i>"], child, "x") }`. -/
def eagerSetup (p : Str) (partID : Nat) : Outcome View :=
  match View.call (HTML ["<b>".toList, "</b>".toList] [.scalar p]) partID with
  | .ok child q =>
    .ok (HTML ["<p>".toList, "</p><i>".toList, "</i>".toList]
      [.vnode child, .scalar "x".toList]) q
  | .failed m q => .failed m q

/-- The concatenation of the resolutions of the elements of a sequence, as the
specification words it: the elements are resolved from left to right, the counter is
handed from one to the next, and the texts are joined with no separator. -/
def concatResolutions : List Value → Nat → Outcome Str
  | [], partID => .ok [] partID
  | v :: vs, partID =>
    match resolveScalar v partID with
    | .ok t p =>
      match concatResolutions vs p with
      | .ok r q => .ok (t ++ r) q
      | .failed m q => .failed m q
    | .failed m p => .failed m p

mutual
/-- Views with no part that panics: no failing `View` and no nil `*VNode` at any depth.
Every View built by `HTML` from scalars, sequences and nested `HTML` Views is one. -/
def View.sound : View → Bool
  | .html _ values => soundElems values
  | .native _ => true
  | .failing => false
/-- Values with no part that panics. -/
def Value.sound : Value → Bool
  | .nil => true
  | .bool _ => true
  | .scalar _ => true
  | .valueLike current => current.sound
  | .view v => v.sound
  | .vnode _ => true
  | .nilVNodePtr => false
  | .func result => result.sound
  | .slice elems => soundElems elems
/-- Every element of the list is `sound`. -/
def soundElems : List Value → Bool
  | [] => true
  | x :: xs => x.sound && soundElems xs
end

/-- An identifier of the attribute pattern: a first character that is a letter, `_` or
`:`, then letters, digits, `-`, `_`, `:` or `.`. -/
def IsIdent (name : Str) : Prop :=
  ∃ (c : Char) (cs : Str), name = c :: cs ∧ isNameStart c = true
    ∧ ∀ d ∈ cs, isNameChar d = true

/-- The text `suf` ends with an identifier, then blanks, `=`, blanks and at most one quote
character, the blanks being the characters of the class `blank`. -/
def EndsInAttr (blank : Char → Bool) (suf : Str) : Prop :=
  ∃ junk name ws1 ws2 q : Str,
    suf = junk ++ name ++ ws1 ++ '=' :: (ws2 ++ q)
    ∧ IsIdent name
    ∧ (∀ c ∈ ws1, blank c = true) ∧ (∀ c ∈ ws2, blank c = true)
    ∧ (q = [] ∨ ∃ c : Char, isQuote c = true ∧ q = [c])

/-- The buffer has a `<` with no `>` (and no further `<`) after it, and the suffix after
that last `<` ends as an attribute does, with blanks of the class `blank` allowed around
the `=`. -/
def AttrPosition (blank : Char → Bool) (buffer : Str) : Prop :=
  ∃ pre suf : Str, buffer = pre ++ '<' :: suf ∧ '<' ∉ suf ∧ '>' ∉ suf
    ∧ EndsInAttr blank suf

/-- The first step of the match from the end: an optional quote is taken off. -/
def stripQuote : Str → Str
  | c :: t => if isQuote c then t else c :: t
  | [] => []

/-- The pattern of `attrRegex` with the class of blanks as a parameter; `attrRegexFind` is
the instance at the class `\s`. -/
def attrMatchWith (blank : Char → Bool) (current : Str) : Option Str :=
  match (stripQuote current.reverse).dropWhile blank with
  | '=' :: t =>
    match (((t.dropWhile blank).takeWhile isNameChar).reverse).dropWhile
        (fun c => !isNameStart c) with
    | [] => none
    | n :: ns => some (n :: ns)
  | _ => none

/-- The conditions on a class of blanks under which the match from the end is the
pattern: no blank is a name character, a quote, `=` or `<`. -/
structure BlankClass (blank : Char → Bool) : Prop where
  not_name : ∀ c, blank c = true → isNameChar c = false
  not_quote : ∀ c, blank c = true → isQuote c = false
  not_eq : blank '=' = false
  not_lt : blank '<' = false

/-- The number of positions of `s` at which the non-empty text `pat` occurs. -/
def countOcc (pat : Str) : Str → Nat
  | [] => 0
  | c :: cs => (if pat.isPrefixOf (c :: cs) then 1 else 0) + countOcc pat cs

/-- A text without the character `!`. -/
def noBang (t : Str) : Bool := t.all (fun c => c != '!')

mutual
/-- Template trees for the count of markers: Views built by `HTML` whose literal
fragments and scalar leaves hold no `!`, with values that are nil, booleans, scalars,
reactive containers, factories, sequences and nested such Views. -/
def View.clean : View → Bool
  | .html literals values => literals.all noBang && cleanElems values
  | .native _ => false
  | .failing => false
/-- The values of a `clean` template tree. -/
def Value.clean : Value → Bool
  | .nil => true
  | .bool _ => true
  | .scalar text => noBang text
  | .valueLike current => current.clean
  | .view v => v.clean
  | .vnode _ => false
  | .nilVNodePtr => false
  | .func result => result.clean
  | .slice elems => cleanElems elems
/-- Every element of the list is `clean`. -/
def cleanElems : List Value → Bool
  | [] => true
  | x :: xs => x.clean && cleanElems xs
end

mutual
/-- The number of interpolation points that one invocation of the View, started with the
counter at `partID`, resolves in content position, nested Views and sequence elements
included. -/
def View.contentPoints : View → Nat → Nat
  | .html literals values, partID => loopContentPoints values literals [] partID
  | .native _, _ => 0
  | .failing, _ => 0
/-- The content-position resolutions of the loop of `HTML` from index `i` on; the
arguments are those of `htmlLoop`, and the branches are those of the loop. -/
def loopContentPoints : List Value → List Str → Str → Nat → Nat
  | _, [], _, _ => 0
  | [], _ :: _, _, _ => 0
  | expr :: vs, s :: ls, out, partID =>
    let out := out ++ s
    let inner := Value.contentPoints expr
    match expr with
    | .view v =>
      match View.call v partID with
      | .ok vnode p =>
        View.contentPoints v partID + loopContentPoints vs ls (out ++ vnode.HTML) p
      | .failed _ _ => View.contentPoints v partID
    | .vnode n => loopContentPoints vs ls (out ++ n.HTML) partID
    | .nilVNodePtr => 0
    | _ =>
      if inAttribute out then
        if contains s "on".toList then
          loopContentPoints vs ls (out ++ ("ev-part-".toList ++ itoa 1)) 1
        else
          match resolveScalar expr (partID + 1) with
          | .ok scalar p => inner (partID + 1) + loopContentPoints vs ls (out ++ scalar) p
          | .failed _ _ => inner (partID + 1)
      else
        match resolveScalar expr partID with
        | .ok text p =>
          -- this interpolation point is resolved in content position
          inner partID + 1
            + loopContentPoints vs ls
                (out ++ ("<!--s".toList ++ markerName p ++ "-->".toList) ++ text
                  ++ ("<!--e".toList ++ markerName p ++ "-->".toList))
                (p + 1)
        | .failed _ _ => inner partID
/-- The content-position resolutions that happen inside `resolveScalar` of the value. -/
def Value.contentPoints : Value → Nat → Nat
  | .nil, _ => 0
  | .bool _, _ => 0
  | .scalar _, _ => 0
  | .valueLike current, partID => current.contentPoints partID
  | .view v, partID => v.contentPoints partID
  | .vnode _, _ => 0
  | .nilVNodePtr, _ => 0
  | .func result, partID => result.contentPoints partID
  | .slice elems, partID => elemsContentPoints elems partID
/-- The content-position resolutions inside the slice loop of `resolveScalar`. -/
def elemsContentPoints : List Value → Nat → Nat
  | [], _ => 0
  | x :: xs, partID =>
    x.contentPoints partID +
      match resolveScalar x partID with
      | .ok _ p => elemsContentPoints xs p
      | .failed _ _ => 0
end

/-- `Marked s a b`: the text `s` is made of texts without `!`, of `a` start markers
`<!--stext-part-n-->` and of `b` end markers `<!--etext-part-n-->`. -/
inductive Marked : Str → Nat → Nat → Prop where
  | nil : Marked [] 0 0
  | text (t s : Str) (a b : Nat) : '!' ∉ t → Marked s a b → Marked (t ++ s) a b
  | startMarker (n : Nat) (s : Str) (a b : Nat) : Marked s a b →
      Marked (("<!--s".toList ++ markerName n ++ "-->".toList) ++ s) (a + 1) b
  | endMarker (n : Nat) (s : Str) (a b : Nat) : Marked s a b →
      Marked (("<!--e".toList ++ markerName n ++ "-->".toList) ++ s) a (b + 1)

/-! ## Auxiliary facts -/

theorem lastIndex_ge (s : Str) (c : Char) : -1 ≤ lastIndex s c := by
  induction s with
  | nil => simp [lastIndex]
  | cons x xs ih =>
    simp only [lastIndex]
    split_ifs <;> omega

theorem lastIndex_of_not_mem (s : Str) (c : Char) (h : c ∉ s) : lastIndex s c = -1 := by
  induction s with
  | nil => simp [lastIndex]
  | cons x xs ih =>
    simp only [List.mem_cons, not_or] at h
    have h1 := ih h.2
    have h2 : ¬ x = c := fun e => h.1 e.symm
    simp [lastIndex, h1, h2]

/-- A buffer with no `<`, or whose last `<` precedes its last `>`, is outside a tag. -/
theorem inTag_false_of (pre : Str)
    (h : '<' ∉ pre ∨ lastIndex pre '<' < lastIndex pre '>') : inTag pre = false := by
  unfold inTag
  rcases h with h | h
  · have h1 := lastIndex_of_not_mem pre '<' h
    have h2 := lastIndex_ge pre '>'
    simp; omega
  · simp; omega

theorem inAttribute_false_of (pre : Str)
    (h : '<' ∉ pre ∨ lastIndex pre '<' < lastIndex pre '>') : inAttribute pre = false := by
  simp [inAttribute, inTag_false_of pre h]

/-- One turn of the loop of `HTML` on a scalar value. -/
theorem htmlLoop_scalar (t : Str) (vs : List Value) (s : Str) (ls : List Str) (out : Str)
    (p : Nat) :
    htmlLoop (.scalar t :: vs) (s :: ls) out p =
      if inAttribute (out ++ s) then
        if contains s "on".toList then
          htmlLoop vs ls (out ++ s ++ ("ev-part-".toList ++ itoa 1)) 1
        else htmlLoop vs ls (out ++ s ++ t) (p + 1)
      else
        htmlLoop vs ls
          (out ++ s ++ ("<!--s".toList ++ markerName p ++ "-->".toList) ++ t
            ++ ("<!--e".toList ++ markerName p ++ "-->".toList)) (p + 1) := by
  simp only [htmlLoop, resolveScalar]

/-- One turn of the loop of `HTML` on a `View`: its HTML is appended as it is. -/
theorem htmlLoop_view (v : View) (vs : List Value) (s : Str) (ls : List Str) (out : Str)
    (p : Nat) :
    htmlLoop (.view v :: vs) (s :: ls) out p =
      match View.call v p with
      | .ok vnode q => htmlLoop vs ls (out ++ s ++ vnode.HTML) q
      | .failed m q => .failed m q := by
  simp only [htmlLoop]

/-- After the last value, the remaining literal is appended. -/
theorem htmlLoop_last (post out : Str) (p : Nat) :
    htmlLoop [] [post] out p = .ok (out ++ post) p := by
  simp [htmlLoop]

/-- The closure `HTML([pre, post], x)` for a scalar `x` in content position. -/
theorem call_content_scalar (pre post x : Str) (p : Nat) (h : inAttribute pre = false) :
    View.call (HTML [pre, post] [.scalar x]) p =
      .ok ⟨pre ++ ("<!--s".toList ++ markerName p ++ "-->".toList) ++ x
            ++ ("<!--e".toList ++ markerName p ++ "-->".toList) ++ post, []⟩ (p + 1) := by
  simp [HTML, View.call, htmlLoop_scalar, htmlLoop_last, h]

/-- `RenderToString` on a `View`: the view is invoked with the counter at 0 and the
caller's counter is put back. -/
theorem RenderToString_view {A : Type} (v : View) (props : A) (c : Nat) :
    RenderToString (.value (.view v)) props c =
      match View.call v 0 with
      | .ok vnode _ => .ok vnode.HTML c
      | .failed m _ => .failed m c := rfl

/-- Invocation of the closure built by `HTML`. -/
theorem call_HTML (literals : List Str) (values : List Value) (p : Nat) :
    View.call (HTML literals values) p =
      match htmlLoop values literals [] p with
      | .ok out q => .ok ⟨out, []⟩ q
      | .failed m q => .failed m q := by
  simp only [HTML, View.call]

/-- One turn of the loop of `HTML` on a value that is neither a `View` nor a `VNode`. -/
theorem htmlLoop_other (expr : Value) (vs : List Value) (s : Str) (ls : List Str)
    (out : Str) (p : Nat) (hv : isView expr = false) (hn : isVNode expr = false) :
    htmlLoop (expr :: vs) (s :: ls) out p =
      if inAttribute (out ++ s) then
        if contains s "on".toList then
          htmlLoop vs ls (out ++ s ++ ("ev-part-".toList ++ itoa 1)) 1
        else
          match resolveScalar expr (p + 1) with
          | .ok scalar q => htmlLoop vs ls (out ++ s ++ scalar) q
          | .failed m q => .failed m q
      else
        match resolveScalar expr p with
        | .ok text q =>
          htmlLoop vs ls
            (out ++ s ++ ("<!--s".toList ++ markerName q ++ "-->".toList) ++ text
              ++ ("<!--e".toList ++ markerName q ++ "-->".toList)) (q + 1)
        | .failed m q => .failed m q := by
  cases expr <;> simp [isView, isVNode] at hv hn <;> simp only [htmlLoop]

/-- `strings.Contains(t, sub)` holds only if every character of `sub` occurs in `t`. -/
theorem mem_of_contains (t sub : Str) (h : contains t sub = true) : ∀ c ∈ sub, c ∈ t := by
  induction t with
  | nil =>
    cases sub with
    | nil => intro c hc; cases hc
    | cons a as => simp [contains] at h
  | cons x xs ih =>
    intro c hc
    simp only [contains, Bool.or_eq_true] at h
    rcases h with h | h
    · have hp : sub <+: x :: xs := List.isPrefixOf_iff_prefix.mp h
      exact hp.subset hc
    · exact List.mem_cons_of_mem _ (ih h c hc)

/-- A text without `<` holds no hydration-marker comment. -/
theorem hasMarker_false_of_no_lt (t : Str) (h : '<' ∉ t) : hasMarker t = false := by
  cases hm : hasMarker t with
  | false => rfl
  | true =>
    exfalso
    simp only [hasMarker, Bool.or_eq_true] at hm
    rcases hm with hm | hm
    · exact h (mem_of_contains t _ hm '<' (by decide))
    · exact h (mem_of_contains t _ hm '<' (by decide))

theorem plain_not_view (v : Value) (h : v.plain = true) :
    isView v = false ∧ isVNode v = false := by
  cases v <;> simp [Value.plain, isView, isVNode] at h ⊢

mutual
/-- On a `plain` value `resolveScalar` returns the concatenation of the leaf texts and
leaves the counter as it was. -/
theorem resolveScalar_plain : (v : Value) → v.plain = true → ∀ p : Nat,
    resolveScalar v p = .ok v.leafTexts.flatten p
  | .nil, _, p => by simp [resolveScalar, Value.leafTexts]
  | .bool false, _, p => by simp [resolveScalar, Value.leafTexts]
  | .bool true, _, p => by simp [resolveScalar, Value.leafTexts]
  | .scalar t, _, p => by simp [resolveScalar, Value.leafTexts]
  | .valueLike w, h, p => by
    have ih := resolveScalar_plain w (by simpa [Value.plain] using h) p
    simp only [resolveScalar, Value.leafTexts, ih]
  | .view _, h, _ => by simp [Value.plain] at h
  | .vnode _, h, _ => by simp [Value.plain] at h
  | .nilVNodePtr, h, _ => by simp [Value.plain] at h
  | .func w, h, p => by
    have ih := resolveScalar_plain w (by simpa [Value.plain] using h) p
    simp only [resolveScalar, Value.leafTexts, ih]
  | .slice xs, h, p => by
    have ih := resolveScalarElems_plain xs (by simpa [Value.plain] using h) [] p
    simp only [resolveScalar, Value.leafTexts, ih, List.nil_append]
/-- The loop over a slice of `plain` values appends their leaf texts to the builder. -/
theorem resolveScalarElems_plain : (xs : List Value) → plainElems xs = true →
    ∀ (b : Str) (p : Nat),
    resolveScalarElems xs b p = .ok (b ++ (leafTextsElems xs).flatten) p
  | [], _, b, p => by simp [resolveScalarElems, leafTextsElems]
  | x :: xs, h, b, p => by
    have hx : x.plain = true ∧ plainElems xs = true := by
      simpa [plainElems] using h
    have ih1 := resolveScalar_plain x hx.1 p
    have ih2 := resolveScalarElems_plain xs hx.2 (b ++ x.leafTexts.flatten) p
    simp only [resolveScalarElems, ih1, ih2, leafTextsElems, List.flatten_append,
      List.append_assoc]
end

/-! ## Checked properties -/

/-- C1: a scalar string interpolated after an opening literal that leaves the point
outside a tag (no `<`, or the last `<` before the last `>`) is wrapped in the marker pair
with id 0, the two literals unchanged around it; in particular
`HTML(["<p>", "</p>"], s)` renders as `<p><!--stext-part-0-->s<!--etext-part-0--></p>`. -/
theorem C1_content_scalar_marked :
    (∀ (s : Str) (c : Nat),
      RenderToString (.value (.view (HTML ["<p>".toList, "</p>".toList] [.scalar s])))
          Value.nil c
        = .ok ("<p><!--stext-part-0-->".toList ++ s ++ "<!--etext-part-0--></p>".toList) c)
    ∧ (∀ (pre post s : Str) (c : Nat),
      ('<' ∉ pre ∨ lastIndex pre '<' < lastIndex pre '>') →
      RenderToString (.value (.view (HTML [pre, post] [.scalar s]))) Value.nil c
        = .ok (pre ++ "<!--stext-part-0-->".toList ++ s ++ "<!--etext-part-0-->".toList
                ++ post) c) := by
  have gen : ∀ (pre post s : Str) (c : Nat),
      ('<' ∉ pre ∨ lastIndex pre '<' < lastIndex pre '>') →
      RenderToString (.value (.view (HTML [pre, post] [.scalar s]))) Value.nil c
        = .ok (pre ++ "<!--stext-part-0-->".toList ++ s ++ "<!--etext-part-0-->".toList
                ++ post) c := by
    intro pre post s c h
    have hm : markerName 0 = "text-part-0".toList := by decide
    simp [RenderToString, call_content_scalar pre post s 0 (inAttribute_false_of pre h), hm]
  refine ⟨?_, gen⟩
  intro s c
  have h := gen "<p>".toList "</p>".toList s c (Or.inr (by decide))
  simpa using h

/-- Witness of C1 at the opening literal `<h1>` and the scalar `Hello`. -/
theorem C1_content_scalar_marked_witness :
    ('<' ∉ "<h1>".toList ∨ lastIndex "<h1>".toList '<' < lastIndex "<h1>".toList '>')
    ∧ RenderToString (.value (.view (HTML ["<h1>".toList, "</h1>".toList]
          [.scalar "Hello".toList]))) Value.nil 5
        = .ok ("<h1>".toList ++ "<!--stext-part-0-->".toList ++ "Hello".toList
                ++ "<!--etext-part-0-->".toList ++ "</h1>".toList) 5 :=
  ⟨Or.inr (by decide),
    C1_content_scalar_marked.2 "<h1>".toList "</h1>".toList "Hello".toList 5
      (Or.inr (by decide))⟩

/-- C2: evaluation of the code on the claim's template.  For every scalar handler `h`,
`HTML(["<button onclick=\"", "\">Ok</button>"], h)` renders as
`<button onclick="ev-part-1">Ok</button>`: the event branch sets the counter to 0 and
increments it before it formats the id, so the first event placeholder carries id 1,
where the claim and the test `TestRender_EventAttrPlaceholder` say id 0. -/
theorem C2_event_placeholder_has_id_one (h : Str) (c : Nat) :
    RenderToString
        (.value (.view (HTML ["<button onclick=\"".toList, "\">Ok</button>".toList]
          [.scalar h]))) Value.nil c
      = .ok "<button onclick=\"ev-part-1\">Ok</button>".toList c := by
  have ha : inAttribute ([] ++ "<button onclick=\"".toList) = true := by decide
  have hc : contains "<button onclick=\"".toList "on".toList = true := by decide
  have hi : itoa 1 = "1".toList := by decide
  simp only [RenderToString, HTML, View.call, htmlLoop_scalar, htmlLoop_last, ha, hc, hi]
  rfl

/-- C3: a scalar string interpolated as the value of `alt` is appended verbatim, with no
marker: `HTML(["<img alt=\"", "\" src=\"/x.png\">"], s)` renders as
`<img alt="s" src="/x.png">`. -/
theorem C3_attribute_scalar_verbatim (s : Str) (c : Nat) :
    RenderToString
        (.value (.view (HTML ["<img alt=\"".toList, "\" src=\"/x.png\">".toList]
          [.scalar s]))) Value.nil c
      = .ok ("<img alt=\"".toList ++ s ++ "\" src=\"/x.png\">".toList) c := by
  have ha : inAttribute ([] ++ "<img alt=\"".toList) = true := by decide
  have hc : contains "<img alt=\"".toList "on".toList = false := by decide
  simp only [RenderToString, HTML, View.call, htmlLoop_scalar, htmlLoop_last, ha, hc]
  simp

/-- C4: evaluation of the code on the claim's template.  For the list of the two items
`<li>a</li>`, `<li>b</li>` interpolated into `<ul>{list}</ul>`, the items carry the ids 0
and 1 and the wrapping pair carries id 2: the wrapper's marker is formatted after the
list has been resolved (post-order), where the claim and the test
`TestRender_ArrayScalar` give the wrapper id 0 and the items 1 and 2. -/
theorem C4_list_wrapper_id_allocated_last (a b : Str) (c : Nat) :
    RenderToString
        (.value (.view (HTML ["<ul>".toList, "</ul>".toList]
          [.slice [.view (HTML ["<li>".toList, "</li>".toList] [.scalar a]),
                   .view (HTML ["<li>".toList, "</li>".toList] [.scalar b])]])))
        Value.nil c
      = .ok ("<ul><!--stext-part-2--><li><!--stext-part-0-->".toList ++ a
              ++ "<!--etext-part-0--></li><li><!--stext-part-1-->".toList ++ b
              ++ "<!--etext-part-1--></li><!--etext-part-2--></ul>".toList) c := by
  have hli : inAttribute "<li>".toList = false := by decide
  have hul : inAttribute ([] ++ "<ul>".toList) = false := by decide
  have h0 : markerName 0 = "text-part-0".toList := by decide
  have h1 : markerName 1 = "text-part-1".toList := by decide
  have h2 : markerName 2 = "text-part-2".toList := by decide
  have ha := call_content_scalar "<li>".toList "</li>".toList a 0 hli
  have hb := call_content_scalar "<li>".toList "</li>".toList b 1 hli
  have hr : resolveScalar
      (.slice [.view (HTML ["<li>".toList, "</li>".toList] [.scalar a]),
               .view (HTML ["<li>".toList, "</li>".toList] [.scalar b])]) 0
      = .ok ("<li><!--stext-part-0-->".toList ++ a
              ++ "<!--etext-part-0--></li><li><!--stext-part-1-->".toList ++ b
              ++ "<!--etext-part-1--></li>".toList) 2 := by
    simp only [resolveScalar, resolveScalarElems]
    rw [ha]
    simp only []
    rw [hb]
    simp [h0, h1]
  rw [RenderToString_view, call_HTML, htmlLoop_other (.slice _) _ _ _ _ _ rfl rfl, hul]
  simp only [Bool.false_eq_true, if_false]
  rw [hr]
  simp [htmlLoop_last, h2]

/-- C5: a View interpolated directly is inlined: for all parent literals `pre`, `post`
and every scalar `x`, `HTML([pre, post], HTML(["<em>", "</em>"], x))` renders as
`pre ++ "<em><!--stext-part-0-->" ++ x ++ "<!--etext-part-0--></em>" ++ post`; the parent
adds no marker and takes no id, whatever `pre` ends in. -/
theorem C5_nested_view_inlined (pre post x : Str) (c : Nat) :
    RenderToString
        (.value (.view (HTML [pre, post]
          [.view (HTML ["<em>".toList, "</em>".toList] [.scalar x])]))) Value.nil c
      = .ok (pre ++ "<em><!--stext-part-0-->".toList ++ x
              ++ "<!--etext-part-0--></em>".toList ++ post) c := by
  have hem : inAttribute "<em>".toList = false := by decide
  have h0 : markerName 0 = "text-part-0".toList := by decide
  have hx := call_content_scalar "<em>".toList "</em>".toList x 0 hem
  rw [RenderToString_view, call_HTML, htmlLoop_view, hx]
  simp [htmlLoop_last, h0]

/-- C6: evaluation of the code on a template with two event attributes.  For all scalar
handlers `h` and `g`, both placeholders of `<a onclick="{h}" onfocus="{g}">` carry id 1:
id 0 is given to none and id 1 is used twice, where the claim says the ids are 0 and 1 in
the order of allocation. -/
theorem C6_event_ids_repeat (h g : Str) (c : Nat) :
    RenderToString
        (.value (.view (HTML
          ["<a onclick=\"".toList, "\" onfocus=\"".toList, "\">".toList]
          [.scalar h, .scalar g]))) Value.nil c
      = .ok "<a onclick=\"ev-part-1\" onfocus=\"ev-part-1\">".toList c := by
  have ha1 : inAttribute ([] ++ "<a onclick=\"".toList) = true := by decide
  have hc1 : contains "<a onclick=\"".toList "on".toList = true := by decide
  have ha2 : inAttribute ([] ++ "<a onclick=\"".toList ++ ("ev-part-".toList ++ itoa 1)
      ++ "\" onfocus=\"".toList) = true := by decide
  have hc2 : contains "\" onfocus=\"".toList "on".toList = true := by decide
  rw [RenderToString_view, call_HTML, htmlLoop_scalar, ha1, hc1]
  simp only [if_true]
  rw [htmlLoop_scalar, ha2, hc2]
  simp only [if_true, htmlLoop_last]
  rfl

/-- C7, counterexample: a sequence holding one View, interpolated as the value of `alt`
(an attribute position that is no event), is emitted with a marker pair inside the
attribute value, although its only scalar leaf `x` holds no marker text.  Likewise the
sequence of the two scalars `<!--stext` and `-part-7-->` is emitted as a text that holds
a marker opening which neither leaf holds. -/
theorem C7_sequence_in_attribute_has_marker :
    inAttribute "<img alt=\"".toList = true
    ∧ contains "<img alt=\"".toList "on".toList = false
    ∧ hasMarker "x".toList = false
    ∧ RenderToString
        (.value (.view (HTML ["<img alt=\"".toList, "\">".toList]
          [.slice [.view (HTML ["<b>".toList, "</b>".toList] [.scalar "x".toList])]])))
        Value.nil 0
      = .ok ("<img alt=\"".toList
              ++ "<b><!--stext-part-1-->x<!--etext-part-1--></b>".toList
              ++ "\">".toList) 0
    ∧ hasMarker "<b><!--stext-part-1-->x<!--etext-part-1--></b>".toList = true
    ∧ hasMarker "<!--stext".toList = false
    ∧ hasMarker "-part-7-->".toList = false
    ∧ RenderToString
        (.value (.view (HTML ["<img alt=\"".toList, "\">".toList]
          [.slice [.scalar "<!--stext".toList, .scalar "-part-7-->".toList]])))
        Value.nil 0
      = .ok ("<img alt=\"".toList ++ "<!--stext-part-7-->".toList ++ "\">".toList) 0
    ∧ hasMarker "<!--stext-part-7-->".toList = true := by
  decide

/-- C7, amended: for a value `v` with no View and no VNode at any depth, interpolated at
a non-event attribute-value position of any template, the loop appends exactly the
concatenation of the scalar leaf texts of `v` after the literal, whatever the leaves
hold; that text holds no hydration-marker comment when no leaf text holds the character
`<`. -/
theorem C7_plain_attribute_value_has_no_marker (v : Value) (out s : Str) (p : Nat)
    (hv : v.plain = true)
    (ha : inAttribute (out ++ s) = true) (he : contains s "on".toList = false) :
    (∃ q : Nat, ∀ (vs : List Value) (ls : List Str),
      htmlLoop (v :: vs) (s :: ls) out p
        = htmlLoop vs ls (out ++ s ++ v.leafTexts.flatten) q)
    ∧ ((∀ t ∈ v.leafTexts, '<' ∉ t) → hasMarker v.leafTexts.flatten = false) := by
  constructor
  · refine ⟨p + 1, fun vs ls => ?_⟩
    obtain ⟨h1, h2⟩ := plain_not_view v hv
    rw [htmlLoop_other v vs s ls out p h1 h2, ha, he, resolveScalar_plain v hv (p + 1)]
    simp
  · intro hl
    apply hasMarker_false_of_no_lt
    intro hmem
    obtain ⟨t, ht, hc⟩ := List.mem_flatten.mp hmem
    exact hl t ht hc

/-- Witness of C7 (amended) at the value `["Lo", container("go")]` after `<img alt="`,
and at the scalar `a<b`, a leaf that holds `<`, for the concatenation. -/
theorem C7_plain_attribute_value_has_no_marker_witness :
    ((∃ q : Nat, ∀ (vs : List Value) (ls : List Str),
      htmlLoop (.slice [.scalar "Lo".toList, .valueLike (.scalar "go".toList)] :: vs)
          ("<img alt=\"".toList :: ls) [] 0
        = htmlLoop vs ls ([] ++ "<img alt=\"".toList
            ++ (Value.slice [.scalar "Lo".toList,
                  .valueLike (.scalar "go".toList)]).leafTexts.flatten) q)
    ∧ hasMarker (Value.slice [.scalar "Lo".toList,
        .valueLike (.scalar "go".toList)]).leafTexts.flatten = false)
    ∧ (∃ q : Nat, ∀ (vs : List Value) (ls : List Str),
      htmlLoop (.scalar "a<b".toList :: vs) ("<img alt=\"".toList :: ls) [] 0
        = htmlLoop vs ls ([] ++ "<img alt=\"".toList
            ++ (Value.scalar "a<b".toList).leafTexts.flatten) q) :=
  ⟨⟨(C7_plain_attribute_value_has_no_marker
      (.slice [.scalar "Lo".toList, .valueLike (.scalar "go".toList)]) []
      "<img alt=\"".toList 0 (by decide) (by decide) (by decide)).1,
    (C7_plain_attribute_value_has_no_marker
      (.slice [.scalar "Lo".toList, .valueLike (.scalar "go".toList)]) []
      "<img alt=\"".toList 0 (by decide) (by decide) (by decide)).2 (by decide)⟩,
   (C7_plain_attribute_value_has_no_marker (.scalar "a<b".toList) []
      "<img alt=\"".toList 0 (by decide) (by decide) (by decide)).1⟩

/-- C8, counterexample: a View in the event-attribute position is inlined, so the output
for a View handler differs from the output for a scalar handler. -/
theorem C8_view_handler_changes_output :
    RenderToString
        (.value (.view (HTML ["<button onclick=\"".toList, "\">Ok</button>".toList]
          [.view (HTML ["x".toList] [])]))) Value.nil 0
      ≠ RenderToString
        (.value (.view (HTML ["<button onclick=\"".toList, "\">Ok</button>".toList]
          [.scalar "y".toList]))) Value.nil 0 := by
  decide

/-- C8, amended: for all values `h1`, `h2` that are not themselves a View or a VNode
(scalars, nil, booleans, reactive containers, factories, sequences of anything),
`HTML(["<button onclick=\"", "\">Ok</button>"], h)` renders the same for `h1` as for
`h2`. -/
theorem C8_event_value_not_serialized (h1 h2 : Value) (c : Nat)
    (hv1 : isView h1 = false) (hn1 : isVNode h1 = false)
    (hv2 : isView h2 = false) (hn2 : isVNode h2 = false) :
    RenderToString
        (.value (.view (HTML ["<button onclick=\"".toList, "\">Ok</button>".toList] [h1])))
        Value.nil c
      = RenderToString
        (.value (.view (HTML ["<button onclick=\"".toList, "\">Ok</button>".toList] [h2])))
        Value.nil c := by
  have ha : inAttribute ([] ++ "<button onclick=\"".toList) = true := by decide
  have hc : contains "<button onclick=\"".toList "on".toList = true := by decide
  rw [RenderToString_view, RenderToString_view, call_HTML, call_HTML,
    htmlLoop_other h1 _ _ _ _ _ hv1 hn1, htmlLoop_other h2 _ _ _ _ _ hv2 hn2, ha, hc]
  simp only [if_true]

/-- Witness of C8 (amended) at a sequence holding a failing View and at a scalar. -/
theorem C8_event_value_not_serialized_witness :
    RenderToString
        (.value (.view (HTML ["<button onclick=\"".toList, "\">Ok</button>".toList]
          [.slice [.view .failing]]))) Value.nil 3
      = RenderToString
        (.value (.view (HTML ["<button onclick=\"".toList, "\">Ok</button>".toList]
          [.scalar "ignored".toList]))) Value.nil 3 :=
  C8_event_value_not_serialized (.slice [.view .failing]) (.scalar "ignored".toList) 3
    rfl rfl rfl rfl

/-- C9: evaluation of the code on `<button class="{c}">` and on
`<p>Connection</p><a href="{x}">`.  The interpolations sit in the attributes `class` and
`href`, whose names do not contain `on`, and both are rendered as the event placeholder
`ev-part-1` and lose their resolved values `big` and `/x`: the code looks for `on` in the
whole literal fragment, where it finds it in `button` and in `Connection`, and not in the
name of the attribute, where the claim says an attribute without `on` in its name gets
its resolved value. -/
theorem C9_class_of_button_gets_placeholder :
    attrRegexFind "<button class=\"".toList = some "class".toList
    ∧ contains "class".toList "on".toList = false
    ∧ RenderToString
        (.value (.view (HTML ["<button class=\"".toList, "\">".toList]
          [.scalar "big".toList]))) Value.nil 0
      = .ok "<button class=\"ev-part-1\">".toList 0
    ∧ attrRegexFind "<p>Connection</p><a href=\"".toList = some "href".toList
    ∧ contains "href".toList "on".toList = false
    ∧ RenderToString
        (.value (.view (HTML ["<p>Connection</p><a href=\"".toList, "\">".toList]
          [.scalar "/x".toList]))) Value.nil 0
      = .ok "<p>Connection</p><a href=\"ev-part-1\">".toList 0 := by
  decide

/-- C10: whatever the counter `c` is at the call, and whatever `compOrView` and `props`
are, the counter is `c` again after `RenderToString`, on return and on panic alike; the
same holds for `RenderComponentToString`. -/
theorem C10_counter_restored :
    (∀ (A : Type) (compOrView : CompOrView A) (props : A) (c : Nat),
      (RenderToString compOrView props c).counter = c)
    ∧ (∀ (P : Type) (comp : Component P) (props : P) (c : Nat),
      (RenderComponentToString comp props c).counter = c) := by
  constructor
  · intro A compOrView props c
    simp only [RenderToString]
    split <;> rfl
  · intro P comp props c
    simp only [RenderComponentToString]
    split <;> rfl

/-! ## Auxiliary facts on the two resolvers -/

/-- The slice loop of `resolveScalar` is the builder followed by the concatenation of the
resolutions of the elements. -/
theorem resolveScalarElems_eq_concat (xs : List Value) :
    ∀ (b : Str) (p : Nat),
      resolveScalarElems xs b p =
        match concatResolutions xs p with
        | .ok r q => .ok (b ++ r) q
        | .failed m q => .failed m q := by
  induction xs with
  | nil => intro b p; simp [resolveScalarElems, concatResolutions]
  | cons x xs ih =>
    intro b p
    simp only [resolveScalarElems, concatResolutions]
    cases hx : resolveScalar x p with
    | ok t q =>
      simp only [ih]
      cases concatResolutions xs q <;> simp
    | failed m q => rfl

/-- A slice of scalars resolves to the concatenation of their texts. -/
theorem resolveScalarElems_scalars (xs : List Str) :
    ∀ (b : Str) (p : Nat),
      resolveScalarElems (xs.map Value.scalar) b p = .ok (b ++ xs.flatten) p := by
  induction xs with
  | nil => intro b p; simp [resolveScalarElems]
  | cons x xs ih =>
    intro b p
    simp [resolveScalarElems, resolveScalar, ih]

mutual
/-- The two resolvers agree on the text, the counter and the panic, on every value. -/
theorem resolveToHTMLAndSetups_HTML : (v : Value) → ∀ p : Nat,
    (resolveToHTMLAndSetups v p).mapVal resolved.HTML = resolveScalar v p
  | .nil, p => by simp [resolveToHTMLAndSetups, resolveScalar, Outcome.mapVal]
  | .bool false, p => by simp [resolveToHTMLAndSetups, resolveScalar, Outcome.mapVal]
  | .bool true, p => by simp [resolveToHTMLAndSetups, resolveScalar, Outcome.mapVal]
  | .scalar t, p => by simp [resolveToHTMLAndSetups, resolveScalar, Outcome.mapVal]
  | .valueLike w, p => by
    have ih := resolveToHTMLAndSetups_HTML w p
    simp only [resolveToHTMLAndSetups, resolveScalar, ih]
  | .view v, p => by
    simp only [resolveToHTMLAndSetups, resolveScalar]
    cases View.call v p <;> simp [Outcome.mapVal]
  | .vnode n, p => by simp [resolveToHTMLAndSetups, resolveScalar, Outcome.mapVal]
  | .nilVNodePtr, p => by simp [resolveToHTMLAndSetups, resolveScalar, Outcome.mapVal]
  | .func w, p => by
    have ih := resolveToHTMLAndSetups_HTML w p
    simp only [resolveToHTMLAndSetups, resolveScalar, ih]
  | .slice xs, p => by
    have ih := resolveToHTMLAndSetupsElems_HTML xs [] [] p
    simp only [resolveToHTMLAndSetups, resolveScalar, ih]
/-- The two slice loops agree, whatever callbacks have been gathered. -/
theorem resolveToHTMLAndSetupsElems_HTML : (xs : List Value) →
    ∀ (html : Str) (setups : List DomSetup) (p : Nat),
    (resolveToHTMLAndSetupsElems xs html setups p).mapVal resolved.HTML
      = resolveScalarElems xs html p
  | [], html, setups, p => by
    simp [resolveToHTMLAndSetupsElems, resolveScalarElems, Outcome.mapVal]
  | x :: xs, html, setups, p => by
    have ih1 := resolveToHTMLAndSetups_HTML x p
    simp only [resolveToHTMLAndSetupsElems, resolveScalarElems, ← ih1]
    cases hx : resolveToHTMLAndSetups x p with
    | ok r q =>
      simp only [Outcome.mapVal]
      exact resolveToHTMLAndSetupsElems_HTML xs _ _ q
    | failed m q => simp [Outcome.mapVal]
end

/-! ## Checked properties, continued -/

/-- C11, counterexample: a Component over the props type `titleProps`, produced by
`DefineComponent`, is rejected by `RenderToString` with the panic of the default case;
and a View whose invocation panics (a nil `View`) makes `RenderToString` fail although
its argument is a View. -/
theorem C11_typed_component_is_rejected :
    RenderToString
        (.componentOf titleProps
          (DefineComponent (fun (p : titleProps) (k : Nat) =>
            Outcome.ok (HTML ["<h1>".toList, "</h1>".toList] [.scalar p.Title]) k)))
        Value.nil 0
      = .failed "RenderToString: expected View or Component" 0
    ∧ RenderToString (.value (.view View.failing)) Value.nil 0
      = .failed "view: panic" 0 := by
  constructor <;> rfl

/-- C11, amended: for a View, and for a Component over `any` applied to the props,
`RenderToString` invokes the resulting view with the counter reset to 0 (for a Component,
after the component has been applied to the props from the counter 0) and returns its
HTML, failing only as the application or the invocation fails; for every other value, a
Component over another props type included, it fails with the panic of the default
case. -/
theorem C11_accepts_view_and_component_any :
    (∀ (A : Type) (v : View) (props : A) (c : Nat),
      RenderToString (.value (.view v)) props c =
        match View.call v 0 with
        | .ok vnode _ => .ok vnode.HTML c
        | .failed m _ => .failed m c)
    ∧ (∀ (A : Type) (comp : Component A) (props : A) (c : Nat),
      RenderToString (.component comp) props c =
        match comp props 0 with
        | .ok view q =>
          match View.call view q with
          | .ok vnode _ => .ok vnode.HTML c
          | .failed m _ => .failed m c
        | .failed m _ => .failed m c)
    ∧ (∀ (A : Type) (x : CompOrView A) (props : A) (c : Nat),
      x.accepted = false →
      RenderToString x props c = .failed "RenderToString: expected View or Component" c) := by
  refine ⟨fun A v props c => rfl, ?_, ?_⟩
  · intro A comp props c
    simp only [RenderToString]
    cases comp props 0 <;> rfl
  · intro A x props c hx
    cases x with
    | value v => cases v <;> first | rfl | simp [CompOrView.accepted] at hx
    | component comp => simp [CompOrView.accepted] at hx
    | componentOf P comp => rfl

/-- Witness of C11 (amended) at a scalar string passed as `compOrView`. -/
theorem C11_accepts_view_and_component_any_witness :
    (CompOrView.value (.scalar "App".toList) : CompOrView Value).accepted = false
    ∧ RenderToString (CompOrView.value (.scalar "App".toList)) Value.nil 4
        = .failed "RenderToString: expected View or Component" 4 :=
  ⟨rfl, C11_accepts_view_and_component_any.2.2 Value
    (CompOrView.value (.scalar "App".toList)) Value.nil 4 rfl⟩

/-- C12: `resolveScalar` gives the empty text for nil and for false, and
`resolveToHTMLAndSetups` gives the empty HTML with no setups for them; the counter is
left as it was. -/
theorem C12_nil_and_false_resolve_to_empty (p : Nat) :
    resolveScalar .nil p = .ok [] p
    ∧ resolveScalar (.bool false) p = .ok [] p
    ∧ resolveToHTMLAndSetups .nil p = .ok ⟨[], []⟩ p
    ∧ resolveToHTMLAndSetups (.bool false) p = .ok ⟨[], []⟩ p := by
  simp [resolveScalar, resolveToHTMLAndSetups]

/-- C13: `resolveScalar` of a sequence is the concatenation of the resolutions of its
elements, resolved left to right with the counter handed on and no separator; for
sequences `xs`, `ys` of scalars the resolution of `xs ++ ys` is the resolution of `xs`
followed by that of `ys`; the empty sequence resolves to the empty text. -/
theorem C13_sequence_resolves_to_concatenation :
    (∀ (vs : List Value) (p : Nat),
      resolveScalar (.slice vs) p = concatResolutions vs p)
    ∧ (∀ (xs ys : List Str) (p : Nat), ∃ a b : Str,
      resolveScalar (.slice (xs.map Value.scalar)) p = .ok a p
      ∧ resolveScalar (.slice (ys.map Value.scalar)) p = .ok b p
      ∧ resolveScalar (.slice ((xs ++ ys).map Value.scalar)) p = .ok (a ++ b) p)
    ∧ (∀ p : Nat, resolveScalar (.slice []) p = .ok [] p) := by
  refine ⟨?_, ?_, ?_⟩
  · intro vs p
    simp only [resolveScalar, resolveScalarElems_eq_concat]
    cases concatResolutions vs p <;> simp
  · intro xs ys p
    refine ⟨xs.flatten, ys.flatten, ?_, ?_, ?_⟩
    · simp [resolveScalar, resolveScalarElems_scalars]
    · simp [resolveScalar, resolveScalarElems_scalars]
    · simp only [resolveScalar, resolveScalarElems_scalars, List.flatten_append,
        List.nil_append]
  · intro p
    simp [resolveScalar, resolveScalarElems]

set_option maxRecDepth 8000 in
/-- C14, counterexample: for the setup `eagerSetup`, which invokes a child view while it
builds its View, `RenderComponentToString(DefineComponent(setup), "a")` and
`RenderToString(setup("a"), nil)` differ from the counter 0: in the first the setup runs
after the reset and the scalar `x` gets id 1, in the second the setup runs before the
call, the counter is then reset, and `x` gets id 0. -/
theorem C14_eager_setup_renders_differently :
    RenderComponentToString (DefineComponent eagerSetup) "a".toList 0
      = .ok ("<p><b><!--stext-part-0-->a<!--etext-part-0--></b></p>".toList
              ++ "<i><!--stext-part-1-->x<!--etext-part-1--></i>".toList) 0
    ∧ RenderToStringOfSetup eagerSetup "a".toList 0
      = .ok ("<p><b><!--stext-part-0-->a<!--etext-part-0--></b></p>".toList
              ++ "<i><!--stext-part-0-->x<!--etext-part-0--></i>".toList) 1
    ∧ RenderComponentToString (DefineComponent eagerSetup) "a".toList 0
      ≠ RenderToStringOfSetup eagerSetup "a".toList 0 := by
  have h1 : RenderComponentToString (DefineComponent eagerSetup) "a".toList 0
      = .ok ("<p><b><!--stext-part-0-->a<!--etext-part-0--></b></p>".toList
              ++ "<i><!--stext-part-1-->x<!--etext-part-1--></i>".toList) 0 := by
    rfl
  have h2 : RenderToStringOfSetup eagerSetup "a".toList 0
      = .ok ("<p><b><!--stext-part-0-->a<!--etext-part-0--></b></p>".toList
              ++ "<i><!--stext-part-0-->x<!--etext-part-0--></i>".toList) 1 := by
    rfl
  refine ⟨h1, h2, ?_⟩
  rw [h1, h2]
  intro h
  injection h with _ hc
  exact absurd hc (by decide)

/-- C14, amended: for every setup function, props value and initial counter, rendering
the component `DefineComponent(setup)` is resetting the counter, applying the setup to
the props, invoking the resulting View and returning its HTML; and when the setup, at
these props, returns one View `v` from every counter and leaves the counter as it was
(it invokes no view and does not panic), `RenderComponentToString(DefineComponent(setup),
p)` is `RenderToString(setup(p), nil)`. -/
theorem C14_component_render_is_view_render (P : Type) (setup : P → Nat → Outcome View)
    (p : P) (c : Nat) :
    (RenderComponentToString (DefineComponent setup) p c =
        match setup p 0 with
        | .ok view q =>
          match View.call view q with
          | .ok vnode _ => .ok vnode.HTML c
          | .failed m _ => .failed m c
        | .failed m _ => .failed m c)
    ∧ (∀ v : View, (∀ k : Nat, setup p k = .ok v k) →
        RenderComponentToString (DefineComponent setup) p c
          = RenderToStringOfSetup setup p c
        ∧ RenderToStringOfSetup setup p c
          = RenderToString (.value (.view v)) Value.nil c) := by
  constructor
  · simp only [RenderComponentToString, DefineComponent]
    cases setup p 0 <;> rfl
  · intro v hv
    constructor
    · simp only [RenderComponentToString, DefineComponent, RenderToStringOfSetup, hv]
      rfl
    · simp only [RenderToStringOfSetup, hv]

/-- Witness of C14 (amended) at the setup of the test
`TestRenderComponentToString_Simple`, which only builds its View. -/
theorem C14_component_render_is_view_render_witness :
    (∀ k : Nat,
      (fun (q : titleProps) (j : Nat) =>
        Outcome.ok (HTML ["<h1>".toList, "</h1>".toList] [.scalar q.Title]) j)
        ⟨"Hello".toList⟩ k
      = .ok (HTML ["<h1>".toList, "</h1>".toList] [.scalar "Hello".toList]) k)
    ∧ RenderComponentToString
        (DefineComponent (fun (q : titleProps) (j : Nat) =>
          Outcome.ok (HTML ["<h1>".toList, "</h1>".toList] [.scalar q.Title]) j))
        ⟨"Hello".toList⟩ 3
      = RenderToStringOfSetup
        (fun (q : titleProps) (j : Nat) =>
          Outcome.ok (HTML ["<h1>".toList, "</h1>".toList] [.scalar q.Title]) j)
        ⟨"Hello".toList⟩ 3 :=
  ⟨fun _ => rfl,
    ((C14_component_render_is_view_render titleProps
      (fun (q : titleProps) (j : Nat) =>
        Outcome.ok (HTML ["<h1>".toList, "</h1>".toList] [.scalar q.Title]) j)
      ⟨"Hello".toList⟩ 3).2
      (HTML ["<h1>".toList, "</h1>".toList] [.scalar "Hello".toList]) (fun _ => rfl)).1⟩

/-- C16: on every value and from every counter, the HTML of `resolveToHTMLAndSetups` is
the text of `resolveScalar`, with the same final counter, and one panics exactly when the
other does. -/
theorem C16_resolvers_agree (v : Value) (p : Nat) :
    (resolveToHTMLAndSetups v p).mapVal resolved.HTML = resolveScalar v p
    ∧ (resolveToHTMLAndSetups v p).counter = (resolveScalar v p).counter := by
  have h := resolveToHTMLAndSetups_HTML v p
  refine ⟨h, ?_⟩
  rw [← h]
  cases resolveToHTMLAndSetups v p <;> rfl

/-- C18: nil and false in content position render as empty text inside a marker pair
with id 0: `HTML(["<p>", "</p>"], v)` is `<p><!--stext-part-0--><!--etext-part-0--></p>`
for both. -/
theorem C18_nil_and_false_get_empty_marker_pair (c : Nat) :
    RenderToString (.value (.view (HTML ["<p>".toList, "</p>".toList] [.nil]))) Value.nil c
      = .ok "<p><!--stext-part-0--><!--etext-part-0--></p>".toList c
    ∧ RenderToString
        (.value (.view (HTML ["<p>".toList, "</p>".toList] [.bool false]))) Value.nil c
      = .ok "<p><!--stext-part-0--><!--etext-part-0--></p>".toList c := by
  have hp : inAttribute ([] ++ "<p>".toList) = false := by decide
  have h0 : markerName 0 = "text-part-0".toList := by decide
  constructor
  · rw [RenderToString_view, call_HTML, htmlLoop_other .nil _ _ _ _ _ rfl rfl, hp]
    simp [resolveScalar, htmlLoop_last, h0]
  · rw [RenderToString_view, call_HTML, htmlLoop_other (.bool false) _ _ _ _ _ rfl rfl, hp]
    simp [resolveScalar, htmlLoop_last, h0]

/-! ## Induction over template trees, and totality -/

/-- Simultaneous induction over Views, values and lists of values. -/
theorem tree_induction (PV : View → Prop) (PX : Value → Prop) (PL : List Value → Prop)
    (h_html : ∀ lits vals, PL vals → PV (.html lits vals))
    (h_native : ∀ n, PV (.native n)) (h_failing : PV .failing)
    (h_nil : PX .nil) (h_bool : ∀ b, PX (.bool b)) (h_scalar : ∀ t, PX (.scalar t))
    (h_valueLike : ∀ w, PX w → PX (.valueLike w)) (h_view : ∀ v, PV v → PX (.view v))
    (h_vnode : ∀ n, PX (.vnode n)) (h_nilptr : PX .nilVNodePtr)
    (h_func : ∀ w, PX w → PX (.func w)) (h_slice : ∀ xs, PL xs → PX (.slice xs))
    (h_lnil : PL []) (h_lcons : ∀ x xs, PX x → PL xs → PL (x :: xs)) :
    (∀ v, PV v) ∧ (∀ x, PX x) ∧ (∀ xs, PL xs) :=
  ⟨fun v => @View.rec PV PX PL h_html h_native h_failing h_nil h_bool h_scalar h_valueLike
      h_view h_vnode h_nilptr h_func h_slice h_lnil h_lcons v,
   fun x => @Value.rec PV PX PL h_html h_native h_failing h_nil h_bool h_scalar h_valueLike
      h_view h_vnode h_nilptr h_func h_slice h_lnil h_lcons x,
   fun xs => @View.rec_1 PV PX PL h_html h_native h_failing h_nil h_bool h_scalar
      h_valueLike h_view h_vnode h_nilptr h_func h_slice h_lnil h_lcons xs⟩

/-- One turn of the loop of `HTML` on a `View` or a `VNode`: what is appended is the text
that `resolveScalar` gives for it. -/
theorem htmlLoop_direct (expr : Value) (vs : List Value) (s : Str) (ls : List Str)
    (out : Str) (p : Nat) (h : isView expr = true ∨ isVNode expr = true) :
    htmlLoop (expr :: vs) (s :: ls) out p =
      match resolveScalar expr p with
      | .ok t q => htmlLoop vs ls (out ++ s ++ t) q
      | .failed m q => .failed m q := by
  cases expr <;> simp [isView, isVNode] at h
  · simp only [htmlLoop, resolveScalar]
    cases View.call _ p <;> rfl
  · simp only [htmlLoop, resolveScalar]
  · simp only [htmlLoop, resolveScalar]

/-- The loop of `HTML` with no literal left. -/
theorem htmlLoop_no_literal (vs : List Value) (out : Str) (p : Nat) :
    htmlLoop vs [] out p = .ok out p := by
  cases vs <;> simp [htmlLoop]

/-- The loop of `HTML` with no value left appends the remaining literals. -/
theorem htmlLoop_no_value (ls : List Str) (out : Str) (p : Nat) :
    htmlLoop [] ls out p = .ok (out ++ ls.flatten) p := by
  cases ls with
  | nil => simp [htmlLoop]
  | cons s ls =>
    simp only [htmlLoop]
    have h : ∀ (ls : List Str) (acc : Str),
        ls.foldl (fun o l => o ++ l) acc = acc ++ ls.flatten := by
      intro ls
      induction ls with
      | nil => intro acc; simp
      | cons l ls ih => intro acc; simp [ih]
    simp [h]

theorem lastIndex_lt_length (s : Str) (c : Char) : lastIndex s c < s.length := by
  induction s with
  | nil => simp [lastIndex]
  | cons x xs ih =>
    simp only [lastIndex, List.length_cons]
    split_ifs <;> omega

theorem lastIndex_cons (x : Char) (xs : Str) (c : Char) :
    lastIndex (x :: xs) c =
      if 0 ≤ lastIndex xs c then lastIndex xs c + 1 else if x = c then 0 else -1 := rfl

/-- `strings.LastIndex` on a concatenation. -/
theorem lastIndex_append (a b : Str) (c : Char) :
    lastIndex (a ++ b) c =
      if 0 ≤ lastIndex b c then (a.length : Int) + lastIndex b c else lastIndex a c := by
  induction a with
  | nil =>
    have h := lastIndex_ge b c
    simp only [List.nil_append, List.length_nil]
    split_ifs with hb
    · simp
    · simp only [lastIndex]; omega
  | cons x xs ih =>
    have h := lastIndex_ge xs c
    rw [List.cons_append, lastIndex_cons, ih, lastIndex_cons]
    split_ifs <;> simp only [List.length_cons] <;> push_cast <;> omega

theorem sound_total :
    (∀ v : View, v.sound = true → ∀ p : Nat, ∃ n q, View.call v p = .ok n q)
    ∧ (∀ x : Value, x.sound = true → ∀ p : Nat, ∃ t q, resolveScalar x p = .ok t q)
    ∧ (∀ xs : List Value, soundElems xs = true →
        (∀ (ls : List Str) (out : Str) (p : Nat), ∃ r q, htmlLoop xs ls out p = .ok r q)
        ∧ (∀ (b : Str) (p : Nat), ∃ t q, resolveScalarElems xs b p = .ok t q)) := by
  apply tree_induction
  · intro lits vals ih h p
    obtain ⟨r, q, hr⟩ := (ih (by simpa [View.sound] using h)).1 lits [] p
    exact ⟨⟨r, []⟩, q, by simp [View.call, hr]⟩
  · intro n _ p
    exact ⟨n, p, by simp [View.call]⟩
  · intro h
    simp [View.sound] at h
  · intro _ p
    exact ⟨[], p, by simp [resolveScalar]⟩
  · intro b _ p
    cases b
    · exact ⟨[], p, by simp [resolveScalar]⟩
    · exact ⟨"true".toList, p, by simp [resolveScalar]⟩
  · intro t _ p
    exact ⟨t, p, by simp [resolveScalar]⟩
  · intro w ih h p
    obtain ⟨t, q, ht⟩ := ih (by simpa [Value.sound] using h) p
    exact ⟨t, q, by simp only [resolveScalar, ht]⟩
  · intro v ih h p
    obtain ⟨n, q, hn⟩ := ih (by simpa [Value.sound] using h) p
    exact ⟨n.HTML, q, by simp only [resolveScalar, hn]⟩
  · intro n _ p
    exact ⟨n.HTML, p, by simp [resolveScalar]⟩
  · intro h
    simp [Value.sound] at h
  · intro w ih h p
    obtain ⟨t, q, ht⟩ := ih (by simpa [Value.sound] using h) p
    exact ⟨t, q, by simp only [resolveScalar, ht]⟩
  · intro xs ih h p
    obtain ⟨t, q, ht⟩ := (ih (by simpa [Value.sound] using h)).2 [] p
    exact ⟨t, q, by simp only [resolveScalar, ht]⟩
  · intro _
    refine ⟨fun ls out p => ⟨_, _, htmlLoop_no_value ls out p⟩, fun b p => ⟨b, p, ?_⟩⟩
    simp [resolveScalarElems]
  · intro x xs ihx ihxs h
    have hx : x.sound = true ∧ soundElems xs = true := by simpa [soundElems] using h
    have ihx := ihx hx.1
    have ihxs := ihxs hx.2
    constructor
    · intro ls out p
      cases ls with
      | nil => exact ⟨out, p, htmlLoop_no_literal _ out p⟩
      | cons s ls =>
        by_cases hd : isView x = true ∨ isVNode x = true
        · obtain ⟨t, q, ht⟩ := ihx p
          rw [htmlLoop_direct x xs s ls out p hd, ht]
          exact ihxs.1 ls _ q
        · have hv : isView x = false := by
            cases hc : isView x <;> simp [hc] at hd ⊢
          have hn : isVNode x = false := by
            cases hc : isVNode x <;> simp [hc] at hd ⊢
          rw [htmlLoop_other x xs s ls out p hv hn]
          split_ifs
          · exact ihxs.1 ls _ 1
          · obtain ⟨t, q, ht⟩ := ihx (p + 1)
            rw [ht]
            exact ihxs.1 ls _ q
          · obtain ⟨t, q, ht⟩ := ihx p
            rw [ht]
            exact ihxs.1 ls _ (q + 1)
    · intro b p
      obtain ⟨t, q, ht⟩ := ihx p
      simp only [resolveScalarElems, ht]
      exact ihxs.2 _ q

/-- C19: evaluation of the code on the claim's template.  For all scalars `a` and `x`,
`HTML(["<img alt=\"", "\"><p>", "</p>"], a, x)` renders the content marker with id 1:
the non-event attribute branch does `partID++` before it resolves the value, so the
interpolation of `alt` takes the id 0 that it never emits, where the claim says the first
content marker still has id 0. -/
theorem C19_attribute_interpolation_takes_an_id (a x : Str) (c : Nat) :
    RenderToString
        (.value (.view (HTML ["<img alt=\"".toList, "\"><p>".toList, "</p>".toList]
          [.scalar a, .scalar x]))) Value.nil c
      = .ok ("<img alt=\"".toList ++ a ++ "\"><p><!--stext-part-1-->".toList ++ x
              ++ "<!--etext-part-1--></p>".toList) c := by
  have ha : inAttribute ([] ++ "<img alt=\"".toList) = true := by decide
  have hc : contains "<img alt=\"".toList "on".toList = false := by decide
  have h1 : markerName (0 + 1) = "text-part-1".toList := by decide
  have h2 : inAttribute ([] ++ "<img alt=\"".toList ++ a ++ "\"><p>".toList) = false := by
    have hlt : lastIndex "\"><p>".toList '<' = 2 := by decide
    have hgt : lastIndex "\"><p>".toList '>' = 4 := by decide
    simp only [inAttribute, inTag, lastIndex_append _ "\"><p>".toList, hlt, hgt]
    simp
  rw [RenderToString_view, call_HTML, htmlLoop_scalar, ha, hc]
  simp only [Bool.false_eq_true, if_true, if_false]
  rw [htmlLoop_scalar, h2]
  simp only [Bool.false_eq_true, if_false, htmlLoop_last, h1]
  simp

/-- C20: a View with no part that panics (every View built by `HTML` from scalars,
sequences and nested `HTML` Views is one) renders to one and the same string from every
initial value of the counter; so rendering it a second time, from the counter the first
render left, returns the same HTML again. -/
theorem C20_render_independent_of_counter (v : View) (hv : v.sound = true) :
    ∃ html : Str,
      (∀ c : Nat, RenderToString (.value (.view v)) Value.nil c = .ok html c)
      ∧ (∀ c : Nat,
          RenderToString (.value (.view v)) Value.nil
              (RenderToString (.value (.view v)) Value.nil c).counter
            = RenderToString (.value (.view v)) Value.nil c) := by
  obtain ⟨n, q, hn⟩ := sound_total.1 v hv 0
  have h : ∀ c : Nat, RenderToString (.value (.view v)) Value.nil c = .ok n.HTML c := by
    intro c
    rw [RenderToString_view, hn]
  refine ⟨n.HTML, h, fun c => ?_⟩
  rw [h c, Outcome.counter, h c]

/-- Witness of C20 at the list template of the repository's tests. -/
theorem C20_render_independent_of_counter_witness :
    ∃ html : Str,
      (∀ c : Nat,
        RenderToString
            (.value (.view (HTML ["<ul>".toList, "</ul>".toList]
              [.slice [.view (HTML ["<li>".toList, "</li>".toList] [.scalar "a".toList])]])))
            Value.nil c = .ok html c)
      ∧ (∀ c : Nat,
          RenderToString
              (.value (.view (HTML ["<ul>".toList, "</ul>".toList]
                [.slice [.view (HTML ["<li>".toList, "</li>".toList]
                  [.scalar "a".toList])]]))) Value.nil
              (RenderToString
                (.value (.view (HTML ["<ul>".toList, "</ul>".toList]
                  [.slice [.view (HTML ["<li>".toList, "</li>".toList]
                    [.scalar "a".toList])]]))) Value.nil c).counter
            = RenderToString
                (.value (.view (HTML ["<ul>".toList, "</ul>".toList]
                  [.slice [.view (HTML ["<li>".toList, "</li>".toList]
                    [.scalar "a".toList])]]))) Value.nil c) :=
  C20_render_independent_of_counter
    (HTML ["<ul>".toList, "</ul>".toList]
      [.slice [.view (HTML ["<li>".toList, "</li>".toList] [.scalar "a".toList])]])
    (by decide)

/-! ## The attribute pattern -/

theorem attrRegexFind_eq (b : Str) : attrRegexFind b = attrMatchWith isSpace b := rfl

theorem isNameChar_of_isNameStart (c : Char) (h : isNameStart c = true) :
    isNameChar c = true := by
  simp only [isNameStart, isNameChar, Bool.or_eq_true] at h ⊢
  tauto

theorem not_isNameChar_of_isSpace (c : Char) (h : isSpace c = true) :
    isNameChar c = false := by
  simp only [isSpace, Bool.or_eq_true, beq_iff_eq] at h
  rcases h with (((h | h) | h) | h) | h <;> subst h <;> decide

theorem not_isQuote_of_isSpace (c : Char) (h : isSpace c = true) :
    isQuote c = false := by
  simp only [isSpace, Bool.or_eq_true, beq_iff_eq] at h
  rcases h with (((h | h) | h) | h) | h <;> subst h <;> decide

theorem blankClass_isSpace : BlankClass isSpace :=
  ⟨not_isNameChar_of_isSpace, not_isQuote_of_isSpace, by decide, by decide⟩

theorem blankClass_none : BlankClass (fun _ => false) :=
  ⟨fun _ h => by simp at h, fun _ h => by simp at h, rfl, rfl⟩

/-- From a decomposition to a match. -/
theorem attrMatchWith_of_endsInAttr (blank : Char → Bool) (hb : BlankClass blank)
    (b : Str) (h : EndsInAttr blank b) : (attrMatchWith blank b).isSome = true := by
  obtain ⟨junk, name, ws1, ws2, q, rfl, ⟨c, cs, rfl, hc, hcs⟩, h1, h2, hq⟩ := h
  have hname : ∀ d ∈ (c :: cs).reverse, isNameChar d = true := by
    intro d hd
    rcases List.mem_cons.mp (List.mem_reverse.mp hd) with rfl | hd
    · exact isNameChar_of_isNameStart _ hc
    · exact hcs d hd
  have hstrip : stripQuote (junk ++ (c :: cs) ++ ws1 ++ '=' :: (ws2 ++ q)).reverse
      = ws2.reverse ++ '=' :: (ws1.reverse ++ ((c :: cs).reverse ++ junk.reverse)) := by
    rcases hq with rfl | ⟨d, hd, rfl⟩
    · cases hw : ws2.reverse with
      | nil => simp [hw, stripQuote, show isQuote '=' = false by decide]
      | cons w ws =>
        have hwm : w ∈ ws2 := by
          have : w ∈ ws2.reverse := by rw [hw]; exact List.mem_cons_self _ _
          exact List.mem_reverse.mp this
        simp [hw, stripQuote, hb.not_quote w (h2 w hwm)]
    · simp [stripQuote, hd]
  have hdrop1 : (ws2.reverse ++ '=' :: (ws1.reverse ++ ((c :: cs).reverse ++ junk.reverse))).dropWhile blank
      = '=' :: (ws1.reverse ++ ((c :: cs).reverse ++ junk.reverse)) := by
    rw [List.dropWhile_append_of_pos (fun a ha => h2 a (List.mem_reverse.mp ha))]
    simp [hb.not_eq]
  have hlast : ∃ l ls, (c :: cs).reverse = l :: ls := by
    cases hr : (c :: cs).reverse with
    | nil => simp at hr
    | cons l ls => exact ⟨l, ls, rfl⟩
  obtain ⟨l, ls, hl⟩ := hlast
  have hlname : isNameChar l = true := hname l (by rw [hl]; exact List.mem_cons_self _ _)
  have hlblank : blank l = false := by
    cases hbl : blank l with
    | false => rfl
    | true => rw [hb.not_name l hbl] at hlname; exact absurd hlname (by simp)
  have hdrop2 : (ws1.reverse ++ ((c :: cs).reverse ++ junk.reverse)).dropWhile blank
      = (c :: cs).reverse ++ junk.reverse := by
    rw [List.dropWhile_append_of_pos (fun a ha => h1 a (List.mem_reverse.mp ha)), hl]
    simp [hlblank]
  have htake : ((c :: cs).reverse ++ junk.reverse).takeWhile isNameChar
      = (c :: cs).reverse ++ junk.reverse.takeWhile isNameChar :=
    List.takeWhile_append_of_pos hname
  have hne : (((c :: cs).reverse ++ junk.reverse.takeWhile isNameChar).reverse).dropWhile
      (fun c => !isNameStart c) ≠ [] := by
    intro hnil
    rw [List.dropWhile_eq_nil_iff] at hnil
    have := hnil c (by simp)
    simp [hc] at this
  simp only [attrMatchWith, hstrip, hdrop1, hdrop2, htake]
  split
  · exact absurd ‹_› hne
  · rfl

theorem stripQuote_spec (r : Str) :
    ∃ q : Str, r = q ++ stripQuote r ∧ (q = [] ∨ ∃ c : Char, isQuote c = true ∧ q = [c]) := by
  cases r with
  | nil => exact ⟨[], rfl, Or.inl rfl⟩
  | cons c t =>
    by_cases hc : isQuote c = true
    · exact ⟨[c], by simp [stripQuote, hc], Or.inr ⟨c, hc, rfl⟩⟩
    · exact ⟨[], by simp [stripQuote, hc], Or.inl rfl⟩

/-- From a match to a decomposition. -/
theorem endsInAttr_of_attrMatchWith (blank : Char → Bool) (b : Str)
    (h : (attrMatchWith blank b).isSome = true) : EndsInAttr blank b := by
  obtain ⟨q, hq, hqq⟩ := stripQuote_spec b.reverse
  generalize hr : stripQuote b.reverse = r at hq h
  simp only [attrMatchWith, hr] at h
  split at h
  · rename_i t heq
    split at h
    · simp at h
    · rename_i n ns heq2
      -- the pieces, read from the end
      obtain ⟨sp2, hsp2, e1⟩ : ∃ sp2 : Str, (∀ c ∈ sp2, blank c = true)
          ∧ r = sp2 ++ '=' :: t :=
        ⟨r.takeWhile blank, fun c hc => List.mem_takeWhile_imp hc, by
          rw [← heq, List.takeWhile_append_dropWhile]⟩
      obtain ⟨sp1, t1, hsp1, e2, ht1⟩ : ∃ sp1 t1 : Str, (∀ c ∈ sp1, blank c = true)
          ∧ t = sp1 ++ t1 ∧ t.dropWhile blank = t1 :=
        ⟨t.takeWhile blank, t.dropWhile blank, fun c hc => List.mem_takeWhile_imp hc,
          (List.takeWhile_append_dropWhile blank t).symm, rfl⟩
      rw [ht1] at heq2
      obtain ⟨run, rest, hrun, e3, hrun2⟩ : ∃ run rest : Str,
          (∀ c ∈ run, isNameChar c = true) ∧ t1 = run ++ rest
          ∧ t1.takeWhile isNameChar = run :=
        ⟨t1.takeWhile isNameChar, t1.dropWhile isNameChar,
          fun c hc => List.mem_takeWhile_imp hc,
          (List.takeWhile_append_dropWhile isNameChar t1).symm, rfl⟩
      rw [hrun2] at heq2
      obtain ⟨pad, e4⟩ : ∃ pad : Str, run.reverse = pad ++ n :: ns :=
        ⟨run.reverse.takeWhile (fun c => !isNameStart c), by
          rw [← heq2, List.takeWhile_append_dropWhile]⟩
      have hn : isNameStart n = true := by
        have h0 := List.head_dropWhile_not (fun c => !isNameStart c) run.reverse
          (by rw [heq2]; simp)
        simp only [heq2, List.head_cons] at h0
        simpa using h0
      have hns : ∀ d ∈ ns, isNameChar d = true := by
        intro d hd
        have hmem : d ∈ run.reverse := by rw [e4]; simp [hd]
        exact hrun d (List.mem_reverse.mp hmem)
      refine ⟨rest.reverse ++ pad, n :: ns, sp1.reverse, sp2.reverse, q.reverse,
        ?_, ⟨n, ns, rfl, hn, hns⟩, ?_, ?_, ?_⟩
      · have hb : b = (q ++ r).reverse := by rw [← hq, List.reverse_reverse]
        rw [hb, e1, e2, e3]
        simp only [List.reverse_append, List.reverse_cons, e4, List.append_assoc,
          List.singleton_append, List.cons_append, List.nil_append]
      · intro c hc
        exact hsp1 c (List.mem_reverse.mp hc)
      · intro c hc
        exact hsp2 c (List.mem_reverse.mp hc)
      · rcases hqq with rfl | ⟨c, hc, rfl⟩
        · exact Or.inl rfl
        · exact Or.inr ⟨c, hc, rfl⟩
  · simp at h

theorem attrMatchWith_iff (blank : Char → Bool) (hb : BlankClass blank) (b : Str) :
    (attrMatchWith blank b).isSome = true ↔ EndsInAttr blank b :=
  ⟨endsInAttr_of_attrMatchWith blank b, attrMatchWith_of_endsInAttr blank hb b⟩

theorem lastIndex_nonneg_of_mem (s : Str) (c : Char) (h : c ∈ s) : 0 ≤ lastIndex s c := by
  induction s with
  | nil => cases h
  | cons x xs ih =>
    rw [lastIndex_cons]
    have hge := lastIndex_ge xs c
    rcases List.mem_cons.mp h with rfl | h
    · split_ifs with h1 h2
      · omega
      · omega
      · exact absurd rfl h2
    · have := ih h
      rw [if_pos this]
      omega

/-- A text that holds `c` splits at the last `c`. -/
theorem split_at_last (s : Str) (c : Char) (h : c ∈ s) :
    ∃ pre suf : Str, s = pre ++ c :: suf ∧ c ∉ suf := by
  induction s with
  | nil => cases h
  | cons x xs ih =>
    by_cases hx : c ∈ xs
    · obtain ⟨pre, suf, rfl, hs⟩ := ih hx
      exact ⟨x :: pre, suf, rfl, hs⟩
    · rcases List.mem_cons.mp h with rfl | h
      · exact ⟨[], xs, rfl, hx⟩
      · exact absurd h hx

/-- After the last `<`, the buffer is inside a tag exactly when no `>` follows. -/
theorem inTag_after_last_lt (pre suf : Str) (h : '<' ∉ suf) :
    inTag (pre ++ '<' :: suf) = true ↔ '>' ∉ suf := by
  have h1 : lastIndex ('<' :: suf) '<' = 0 := by
    rw [lastIndex_cons, lastIndex_of_not_mem suf '<' h]; simp
  have h2 := lastIndex_lt_length pre '>'
  have h3 := lastIndex_ge pre '>'
  simp only [inTag, decide_eq_true_eq, lastIndex_append pre, h1, le_refl, if_true]
  rw [lastIndex_cons]
  by_cases hs : '>' ∈ suf
  · have := lastIndex_nonneg_of_mem suf '>' hs
    simp only [this, if_true, hs, not_true_eq_false, iff_false]
    have h4 : 0 ≤ lastIndex suf '>' + 1 := by omega
    simp only [h4, if_true]
    omega
  · have := lastIndex_of_not_mem suf '>' hs
    simp only [this, hs, not_false_eq_true, iff_true]
    simp
    omega

/-- The end of an attribute holds no `<`, so it lies after the last `<`. -/
theorem endsInAttr_after_last_lt (blank : Char → Bool) (hb : BlankClass blank)
    (pre suf : Str) (h : '<' ∉ suf) :
    EndsInAttr blank (pre ++ '<' :: suf) ↔ EndsInAttr blank suf := by
  constructor
  · rintro ⟨junk, name, ws1, ws2, q, heq, hname, h1, h2, hq⟩
    have hM : '<' ∉ name ++ ws1 ++ '=' :: (ws2 ++ q) := by
      obtain ⟨c, cs, rfl, hc, hcs⟩ := hname
      intro hmem
      simp only [List.mem_append, List.mem_cons] at hmem
      rcases hmem with ((hm | hm) | hm) | hm | hm | hm
      · rw [← hm] at hc; exact absurd hc (by decide)
      · exact absurd (hcs _ hm) (by decide)
      · have := h1 _ hm; rw [hb.not_lt] at this; exact absurd this (by simp)
      · exact absurd hm (by decide)
      · have := h2 _ hm; rw [hb.not_lt] at this; exact absurd this (by simp)
      · rcases hq with rfl | ⟨d, hd, rfl⟩
        · cases hm
        · rw [List.mem_singleton] at hm
          rw [← hm] at hd; exact absurd hd (by decide)
    have heq2 : pre ++ '<' :: suf = junk ++ (name ++ ws1 ++ '=' :: (ws2 ++ q)) := by
      rw [heq]; simp [List.append_assoc]
    rcases List.append_eq_append_iff.mp heq2 with ⟨a, ha, hb2⟩ | ⟨a, ha, hb2⟩
    · cases a with
      | nil =>
        simp only [List.nil_append] at hb2
        exact absurd (by rw [← hb2]; exact List.mem_cons_self _ _) hM
      | cons x a =>
        simp only [List.cons_append, List.cons.injEq] at hb2
        exact ⟨a, name, ws1, ws2, q, by rw [hb2.2]; simp [List.append_assoc],
          hname, h1, h2, hq⟩
    · exact absurd (by rw [hb2]; simp) hM
  · rintro ⟨junk, name, ws1, ws2, q, rfl, hname, h1, h2, hq⟩
    exact ⟨pre ++ '<' :: junk, name, ws1, ws2, q, by simp [List.append_assoc],
      hname, h1, h2, hq⟩

/-- The condition of the claim, with blanks of the class `blank`, is the test of the
loop with the pattern read for that class. -/
theorem attrPosition_iff (blank : Char → Bool) (hb : BlankClass blank) (b : Str) :
    AttrPosition blank b ↔ inTag b = true ∧ (attrMatchWith blank b).isSome = true := by
  constructor
  · rintro ⟨pre, suf, rfl, hlt, hgt, hend⟩
    exact ⟨(inTag_after_last_lt pre suf hlt).mpr hgt,
      (attrMatchWith_iff blank hb _).mpr
        ((endsInAttr_after_last_lt blank hb pre suf hlt).mpr hend)⟩
  · rintro ⟨htag, hm⟩
    have hmem : '<' ∈ b := by
      by_contra hno
      rw [inTag_false_of b (Or.inl hno)] at htag
      exact absurd htag (by simp)
    obtain ⟨pre, suf, rfl, hlt⟩ := split_at_last b '<' hmem
    exact ⟨pre, suf, rfl, hlt, (inTag_after_last_lt pre suf hlt).mp htag,
      (endsInAttr_after_last_lt blank hb pre suf hlt).mp
        ((attrMatchWith_iff blank hb _).mp hm)⟩

theorem inAttribute_iff (b : Str) : inAttribute b = true ↔ AttrPosition isSpace b := by
  rw [attrPosition_iff isSpace blankClass_isSpace, inAttribute, attrRegexFind_eq,
    Bool.and_eq_true]

/-- C17, counterexample: after `<a href = ` the loop classifies the position as an
attribute value, although the identifier `href` is followed by a blank and not
immediately by `=`: the condition of the claim, which allows no blank, does not hold. -/
theorem C17_blank_before_equals_is_attribute :
    inAttribute "<a href = ".toList = true
    ∧ ¬ AttrPosition (fun _ => false) "<a href = ".toList := by
  refine ⟨by decide, ?_⟩
  rw [attrPosition_iff _ blankClass_none]
  decide

/-- C17, amended: the loop classifies the next interpolation point as an attribute-value
position exactly when the buffer has a `<` with no `>` after it and the suffix after that
last `<` ends with an identifier, then blanks (tab, newline, form feed, carriage return,
space) or none, `=`, blanks or none, and at most one quote character; a buffer with no
`<` is a content position; the classification depends only on the suffix that starts at
the last `<`. -/
theorem C17_attribute_position_allows_blanks :
    (∀ b : Str, inAttribute b = true ↔ AttrPosition isSpace b)
    ∧ (∀ b : Str, '<' ∉ b → inAttribute b = false)
    ∧ (∀ pre suf : Str, '<' ∉ suf →
        inAttribute (pre ++ '<' :: suf) = inAttribute ('<' :: suf)) := by
  refine ⟨inAttribute_iff, fun b hb => inAttribute_false_of b (Or.inl hb), ?_⟩
  intro pre suf h
  have key : ∀ X : Str, inAttribute (X ++ '<' :: suf) = true
      ↔ ('>' ∉ suf ∧ EndsInAttr isSpace suf) := by
    intro X
    rw [inAttribute, attrRegexFind_eq, Bool.and_eq_true, inTag_after_last_lt X suf h,
      attrMatchWith_iff isSpace blankClass_isSpace,
      endsInAttr_after_last_lt isSpace blankClass_isSpace X suf h]
  have h1 := key pre
  have h2 := key []
  rw [List.nil_append] at h2
  rw [Bool.eq_iff_iff, h1, h2]

/-- Witness of C17 (amended) at a buffer with no `<` and at the buffer
`<p><img alt="`. -/
theorem C17_attribute_position_allows_blanks_witness :
    ('<' ∉ "Hello ".toList ∧ inAttribute "Hello ".toList = false)
    ∧ ('<' ∉ "img alt=\"".toList
        ∧ inAttribute ("<p>".toList ++ '<' :: "img alt=\"".toList)
          = inAttribute ('<' :: "img alt=\"".toList)) :=
  ⟨⟨by decide, C17_attribute_position_allows_blanks.2.1 "Hello ".toList (by decide)⟩,
   ⟨by decide,
    C17_attribute_position_allows_blanks.2.2 "<p>".toList "img alt=\"".toList
      (by decide)⟩⟩

/-! ## Counting markers -/

theorem noBang_iff (t : Str) : noBang t = true ↔ '!' ∉ t := by
  simp only [noBang, List.all_eq_true, bne_iff_ne, ne_eq]
  constructor
  · intro h hm; exact h _ hm rfl
  · intro h c hc e; exact h (e ▸ hc)

theorem digitChar_isDigit (d : Nat) (h : d < 10) : (Nat.digitChar d).isDigit = true := by
  interval_cases d <;> decide

theorem toDigitsCore_isDigit (fuel : Nat) : ∀ (n : Nat) (ds : List Char),
    (∀ c ∈ ds, c.isDigit = true) →
    ∀ c ∈ Nat.toDigitsCore 10 fuel n ds, c.isDigit = true := by
  induction fuel with
  | zero => intro n ds h c hc; simpa [Nat.toDigitsCore] using h c (by simpa [Nat.toDigitsCore] using hc)
  | succ fuel ih =>
    intro n ds h c hc
    have hd : ∀ c ∈ Nat.digitChar (n % 10) :: ds, c.isDigit = true := by
      intro c hc
      rcases List.mem_cons.mp hc with rfl | hc
      · exact digitChar_isDigit _ (Nat.mod_lt _ (by decide))
      · exact h c hc
    simp only [Nat.toDigitsCore] at hc
    split_ifs at hc
    · exact hd c hc
    · exact ih _ _ hd c hc

/-- The decimal text of a part id holds digits only. -/
theorem itoa_isDigit (n : Nat) : ∀ c ∈ itoa n, c.isDigit = true :=
  toDigitsCore_isDigit _ _ _ (fun _ h => by cases h)

theorem itoa_noBang (n : Nat) : '!' ∉ itoa n := fun h =>
  absurd (itoa_isDigit n _ h) (by decide)

/-- A text without `!` put before a text that does not begin with `!` adds no occurrence
of a pattern that begins with `<!`. -/
theorem countOcc_text (r t s : Str) (ht : '!' ∉ t) (hs : s.head? ≠ some '!') :
    countOcc ('<' :: '!' :: r) (t ++ s) = countOcc ('<' :: '!' :: r) s := by
  induction t with
  | nil => rfl
  | cons c t ih =>
    have ht2 : '!' ∉ t := fun h => ht (List.mem_cons_of_mem _ h)
    have hhead : (t ++ s).head? ≠ some '!' := by
      cases t with
      | nil => simpa using hs
      | cons d t =>
        simp only [List.cons_append, List.head?_cons, ne_eq, Option.some.injEq]
        intro e
        exact ht (by rw [e]; simp)
    have hpre : List.isPrefixOf ('<' :: '!' :: r) (c :: (t ++ s)) = false := by
      cases hts : t ++ s with
      | nil => simp [List.isPrefixOf]
      | cons d u =>
        rw [hts] at hhead
        simp only [List.head?_cons, ne_eq, Option.some.injEq] at hhead
        simp only [List.isPrefixOf, Bool.and_eq_false_imp, Bool.and_eq_true, beq_iff_eq]
        intro _ h2
        exact absurd h2.symm hhead
    rw [List.cons_append, countOcc, hpre, ih ht2]
    simp

theorem Marked.cast {s : Str} {a b a2 b2 : Nat} (h : Marked s a b) (ha : a = a2)
    (hb : b = b2) : Marked s a2 b2 := by
  subst ha; subst hb; exact h

theorem Marked.append {s s2 : Str} {a b a2 b2 : Nat} (h : Marked s a b)
    (h2 : Marked s2 a2 b2) : Marked (s ++ s2) (a + a2) (b + b2) := by
  induction h with
  | nil => simpa using h2
  | text t s a b ht _ ih =>
    rw [List.append_assoc]
    exact Marked.text t _ _ _ ht ih
  | startMarker n s a b _ ih =>
    rw [List.append_assoc]
    exact (Marked.startMarker n _ _ _ ih).cast (by omega) rfl
  | endMarker n s a b _ ih =>
    rw [List.append_assoc]
    exact (Marked.endMarker n _ _ _ ih).cast rfl (by omega)

/-- A single text without `!`. -/
theorem Marked.single (t : Str) (ht : '!' ∉ t) : Marked t 0 0 := by
  have := Marked.text t [] 0 0 ht Marked.nil
  simpa using this

theorem marker_body_noBang (k : Char) (hk : k ≠ '!') (n : Nat) :
    '!' ∉ '-' :: '-' :: k :: ("text-part-".toList ++ itoa n ++ "-->".toList) := by
  intro h
  simp only [List.mem_cons, List.mem_append] at h
  rcases h with h | h | h | (h | h) | h
  · exact absurd h (by decide)
  · exact absurd h (by decide)
  · exact hk h.symm
  · exact absurd h (by decide)
  · exact itoa_noBang n h
  · exact absurd h (by decide)

/-- In a `Marked` text the occurrences of the two marker openings are the markers. -/
theorem Marked.count {s : Str} {a b : Nat} (h : Marked s a b) :
    countOcc "<!--stext-part-".toList s = a ∧ countOcc "<!--etext-part-".toList s = b
    ∧ s.head? ≠ some '!' := by
  induction h with
  | nil => simp [countOcc]
  | text t s a b ht _ ih =>
    obtain ⟨ih1, ih2, ih3⟩ := ih
    refine ⟨?_, ?_, ?_⟩
    · rw [← ih1]; exact countOcc_text _ t s ht ih3
    · rw [← ih2]; exact countOcc_text _ t s ht ih3
    · cases t with
      | nil => simpa using ih3
      | cons d t =>
        simp only [List.cons_append, List.head?_cons, ne_eq, Option.some.injEq]
        intro e
        exact ht (by rw [e]; simp)
  | startMarker n s a b _ ih =>
    obtain ⟨ih1, ih2, ih3⟩ := ih
    have hshape : ("<!--s".toList ++ markerName n ++ "-->".toList) ++ s
        = '<' :: '!' :: (('-' :: '-' :: 's' :: ("text-part-".toList ++ itoa n
            ++ "-->".toList)) ++ s) := by
      simp [markerName]
    have hb := marker_body_noBang 's' (by decide) n
    rw [hshape]
    refine ⟨?_, ?_, by simp⟩
    · have h0 := countOcc_text "--stext-part-".toList _ s hb ih3
      have e : "<!--stext-part-".toList = '<' :: '!' :: "--stext-part-".toList := rfl
      rw [e, countOcc, countOcc, h0, ← e, ih1]
      simp [List.isPrefixOf]
      omega
    · have h0 := countOcc_text "--etext-part-".toList _ s hb ih3
      have e : "<!--etext-part-".toList = '<' :: '!' :: "--etext-part-".toList := rfl
      rw [e, countOcc, countOcc, h0, ← e, ih2]
      simp [List.isPrefixOf]
  | endMarker n s a b _ ih =>
    obtain ⟨ih1, ih2, ih3⟩ := ih
    have hshape : ("<!--e".toList ++ markerName n ++ "-->".toList) ++ s
        = '<' :: '!' :: (('-' :: '-' :: 'e' :: ("text-part-".toList ++ itoa n
            ++ "-->".toList)) ++ s) := by
      simp [markerName]
    have hb := marker_body_noBang 'e' (by decide) n
    rw [hshape]
    refine ⟨?_, ?_, by simp⟩
    · have h0 := countOcc_text "--stext-part-".toList _ s hb ih3
      have e : "<!--stext-part-".toList = '<' :: '!' :: "--stext-part-".toList := rfl
      rw [e, countOcc, countOcc, h0, ← e, ih1]
      simp [List.isPrefixOf]
    · have h0 := countOcc_text "--etext-part-".toList _ s hb ih3
      have e : "<!--etext-part-".toList = '<' :: '!' :: "--etext-part-".toList := rfl
      rw [e, countOcc, countOcc, h0, ← e, ih2]
      simp [List.isPrefixOf]
      omega

theorem loopContentPoints_no_value (ls : List Str) (out : Str) (p : Nat) :
    loopContentPoints [] ls out p = 0 := by
  cases ls <;> simp [loopContentPoints]

theorem loopContentPoints_no_literal (vs : List Value) (out : Str) (p : Nat) :
    loopContentPoints vs [] out p = 0 := by
  cases vs <;> simp [loopContentPoints]

theorem loopContentPoints_view (v : View) (vs : List Value) (s : Str) (ls : List Str)
    (out : Str) (p : Nat) :
    loopContentPoints (.view v :: vs) (s :: ls) out p =
      match View.call v p with
      | .ok vnode q => v.contentPoints p + loopContentPoints vs ls (out ++ s ++ vnode.HTML) q
      | .failed _ _ => v.contentPoints p := by
  simp only [loopContentPoints]

theorem loopContentPoints_other (expr : Value) (vs : List Value) (s : Str) (ls : List Str)
    (out : Str) (p : Nat) (hv : isView expr = false) (hn : isVNode expr = false) :
    loopContentPoints (expr :: vs) (s :: ls) out p =
      if inAttribute (out ++ s) then
        if contains s "on".toList then
          loopContentPoints vs ls (out ++ s ++ ("ev-part-".toList ++ itoa 1)) 1
        else
          match resolveScalar expr (p + 1) with
          | .ok scalar q =>
            expr.contentPoints (p + 1) + loopContentPoints vs ls (out ++ s ++ scalar) q
          | .failed _ _ => expr.contentPoints (p + 1)
      else
        match resolveScalar expr p with
        | .ok text q =>
          expr.contentPoints p + 1
            + loopContentPoints vs ls
                (out ++ s ++ ("<!--s".toList ++ markerName q ++ "-->".toList) ++ text
                  ++ ("<!--e".toList ++ markerName q ++ "-->".toList)) (q + 1)
        | .failed _ _ => expr.contentPoints p := by
  cases expr <;> simp [isView, isVNode] at hv hn <;> simp only [loopContentPoints]

theorem loopContentPoints_direct (expr : Value) (vs : List Value) (s : Str)
    (ls : List Str) (out : Str) (p : Nat) (h : isView expr = true ∨ isVNode expr = true) :
    loopContentPoints (expr :: vs) (s :: ls) out p =
      match resolveScalar expr p with
      | .ok t q => expr.contentPoints p + loopContentPoints vs ls (out ++ s ++ t) q
      | .failed _ _ => expr.contentPoints p := by
  cases expr <;> simp [isView, isVNode] at h
  · simp only [loopContentPoints, resolveScalar, Value.contentPoints]
    cases View.call _ p <;> rfl
  · simp only [loopContentPoints, resolveScalar, Value.contentPoints, Nat.zero_add]
  · simp only [loopContentPoints, resolveScalar, Value.contentPoints]

theorem flatten_noBang (ls : List Str) (h : ∀ l ∈ ls, '!' ∉ l) : '!' ∉ ls.flatten := by
  intro hm
  obtain ⟨l, hl, hc⟩ := List.mem_flatten.mp hm
  exact h l hl hc

/-- On a `clean` template tree every run returns, and the text it returns is `Marked`
with as many start markers and as many end markers as content positions were resolved. -/
theorem clean_marked :
    (∀ v : View, v.clean = true → ∀ p : Nat, ∃ n q, View.call v p = .ok n q
        ∧ Marked n.HTML (v.contentPoints p) (v.contentPoints p))
    ∧ (∀ x : Value, x.clean = true → ∀ p : Nat, ∃ t q, resolveScalar x p = .ok t q
        ∧ Marked t (x.contentPoints p) (x.contentPoints p))
    ∧ (∀ xs : List Value, cleanElems xs = true →
        (∀ (ls : List Str) (out : Str) (p : Nat), (∀ l ∈ ls, '!' ∉ l) →
          ∃ r q, htmlLoop xs ls out p = .ok (out ++ r) q
            ∧ Marked r (loopContentPoints xs ls out p) (loopContentPoints xs ls out p))
        ∧ (∀ (b : Str) (p : Nat), ∃ t q, resolveScalarElems xs b p = .ok (b ++ t) q
            ∧ Marked t (elemsContentPoints xs p) (elemsContentPoints xs p))) := by
  apply tree_induction
  · intro lits vals ih h p
    have hc : (∀ l ∈ lits, '!' ∉ l) ∧ cleanElems vals = true := by
      simp only [View.clean, Bool.and_eq_true, List.all_eq_true] at h
      exact ⟨fun l hl => (noBang_iff l).mp (h.1 l hl), h.2⟩
    obtain ⟨r, q, hr, hm⟩ := (ih hc.2).1 lits [] p hc.1
    refine ⟨⟨r, []⟩, q, ?_, ?_⟩
    · simp only [View.call, hr, List.nil_append]
    · simpa [View.contentPoints] using hm
  · intro n h
    simp [View.clean] at h
  · intro h
    simp [View.clean] at h
  · intro _ p
    exact ⟨[], p, by simp [resolveScalar], by simpa [Value.contentPoints] using Marked.nil⟩
  · intro b _ p
    cases b
    · exact ⟨[], p, by simp [resolveScalar],
        by simpa [Value.contentPoints] using Marked.nil⟩
    · exact ⟨"true".toList, p, by simp [resolveScalar],
        by simpa [Value.contentPoints] using Marked.single "true".toList (by decide)⟩
  · intro t h p
    exact ⟨t, p, by simp [resolveScalar],
      by simpa [Value.contentPoints] using
        Marked.single t ((noBang_iff t).mp (by simpa [Value.clean] using h))⟩
  · intro w ih h p
    obtain ⟨t, q, ht, hm⟩ := ih (by simpa [Value.clean] using h) p
    exact ⟨t, q, by simp only [resolveScalar, ht], by simpa [Value.contentPoints] using hm⟩
  · intro v ih h p
    obtain ⟨n, q, hn, hm⟩ := ih (by simpa [Value.clean] using h) p
    exact ⟨n.HTML, q, by simp only [resolveScalar, hn],
      by simpa [Value.contentPoints] using hm⟩
  · intro n h
    simp [Value.clean] at h
  · intro h
    simp [Value.clean] at h
  · intro w ih h p
    obtain ⟨t, q, ht, hm⟩ := ih (by simpa [Value.clean] using h) p
    exact ⟨t, q, by simp only [resolveScalar, ht], by simpa [Value.contentPoints] using hm⟩
  · intro xs ih h p
    obtain ⟨t, q, ht, hm⟩ := (ih (by simpa [Value.clean] using h)).2 [] p
    exact ⟨t, q, by simpa only [resolveScalar, List.nil_append] using ht,
      by simpa [Value.contentPoints] using hm⟩
  · intro _
    constructor
    · intro ls out p hls
      refine ⟨ls.flatten, p, htmlLoop_no_value ls out p, ?_⟩
      rw [loopContentPoints_no_value]
      exact Marked.single _ (flatten_noBang ls hls)
    · intro b p
      exact ⟨[], p, by simp [resolveScalarElems],
        by simpa [elemsContentPoints] using Marked.nil⟩
  · intro x xs ihx ihxs h
    have hx : x.clean = true ∧ cleanElems xs = true := by simpa [cleanElems] using h
    have ihx := ihx hx.1
    have ihxs := ihxs hx.2
    constructor
    · intro ls out p hls
      cases ls with
      | nil =>
        refine ⟨[], p, by simp [htmlLoop_no_literal], ?_⟩
        rw [loopContentPoints_no_literal]
        exact Marked.nil
      | cons s ls =>
        have hs : '!' ∉ s := hls s (List.mem_cons_self _ _)
        have hls2 : ∀ l ∈ ls, '!' ∉ l := fun l hl => hls l (List.mem_cons_of_mem _ hl)
        have hS := Marked.single s hs
        by_cases hd : isView x = true ∨ isVNode x = true
        · obtain ⟨t, q, ht, hm⟩ := ihx p
          obtain ⟨r, q3, hr, hm2⟩ := ihxs.1 ls (out ++ s ++ t) q hls2
          refine ⟨s ++ t ++ r, q3, ?_, ?_⟩
          · rw [htmlLoop_direct x xs s ls out p hd, ht]
            dsimp only
            rw [hr]
            simp only [List.append_assoc]
          · rw [loopContentPoints_direct x xs s ls out p hd, ht]
            dsimp only
            exact ((hS.append hm).append hm2).cast (by simp_arith) (by simp_arith)
        · have hv : isView x = false := by
            cases hc : isView x <;> simp [hc] at hd ⊢
          have hn : isVNode x = false := by
            cases hc : isVNode x <;> simp [hc] at hd ⊢
          rw [htmlLoop_other x xs s ls out p hv hn,
            loopContentPoints_other x xs s ls out p hv hn]
          by_cases ha : inAttribute (out ++ s) = true
          · by_cases hon : contains s "on".toList = true
            · simp only [ha, hon, if_true]
              obtain ⟨r, q3, hr, hm2⟩ :=
                ihxs.1 ls (out ++ s ++ ("ev-part-".toList ++ itoa 1)) 1 hls2
              refine ⟨s ++ ("ev-part-".toList ++ itoa 1) ++ r, q3, ?_, ?_⟩
              · rw [hr]
                simp only [List.append_assoc]
              · have hev : Marked ("ev-part-".toList ++ itoa 1) 0 0 :=
                  Marked.single _ (by decide)
                exact ((hS.append hev).append hm2).cast (by simp_arith) (by simp_arith)
            · have hon2 : contains s "on".toList = false := by simpa using hon
              simp only [ha, hon2, if_true, if_false, Bool.false_eq_true]
              obtain ⟨t, q, ht, hm⟩ := ihx (p + 1)
              obtain ⟨r, q3, hr, hm2⟩ := ihxs.1 ls (out ++ s ++ t) q hls2
              rw [ht]
              dsimp only
              refine ⟨s ++ t ++ r, q3, ?_, ?_⟩
              · rw [hr]
                simp only [List.append_assoc]
              · exact ((hS.append hm).append hm2).cast (by simp_arith) (by simp_arith)
          · have ha2 : inAttribute (out ++ s) = false := by simpa using ha
            simp only [ha2, if_false, Bool.false_eq_true]
            obtain ⟨t, q, ht, hm⟩ := ihx p
            obtain ⟨r, q3, hr, hm2⟩ := ihxs.1 ls
              (out ++ s ++ ("<!--s".toList ++ markerName q ++ "-->".toList) ++ t
                ++ ("<!--e".toList ++ markerName q ++ "-->".toList)) (q + 1) hls2
            rw [ht]
            dsimp only
            refine ⟨s ++ ("<!--s".toList ++ markerName q ++ "-->".toList) ++ t
                ++ ("<!--e".toList ++ markerName q ++ "-->".toList) ++ r, q3, ?_, ?_⟩
            · rw [hr]
              simp only [List.append_assoc]
            · have h1 := Marked.endMarker q r _ _ hm2
              have h2 := hm.append h1
              have h3 := Marked.startMarker q _ _ _ h2
              have h4 := hS.append h3
              have e : s ++ (("<!--s".toList ++ markerName q ++ "-->".toList)
                    ++ (t ++ (("<!--e".toList ++ markerName q ++ "-->".toList) ++ r)))
                  = s ++ ("<!--s".toList ++ markerName q ++ "-->".toList) ++ t
                    ++ ("<!--e".toList ++ markerName q ++ "-->".toList) ++ r := by
                simp only [List.append_assoc]
              rw [← e]
              exact h4.cast (by simp_arith) (by simp_arith)
    · intro b p
      obtain ⟨t, q, ht, hm⟩ := ihx p
      obtain ⟨t2, q2, ht2, hm2⟩ := ihxs.2 (b ++ t) q
      refine ⟨t ++ t2, q2, ?_, ?_⟩
      · simp only [resolveScalarElems, ht, ht2, List.append_assoc]
      · simp only [elemsContentPoints, ht]
        exact hm.append hm2

/-- C15, counterexample: a template whose only literal holds the text of a start marker
has one start marker, no end marker and no content position, and it has no scalar leaf at
all; and the sequence of the two scalars `<!-` and `-stext-part-`, neither of which holds
`<!--`, resolved in the one content position of `<p>{list}</p>`, gives two start markers
and one end marker. -/
theorem C15_marker_text_from_template :
    RenderToString (.value (.view (HTML ["<!--stext-part-0-->".toList] []))) Value.nil 0
      = .ok "<!--stext-part-0-->".toList 0
    ∧ countOcc "<!--stext-part-".toList "<!--stext-part-0-->".toList = 1
    ∧ countOcc "<!--etext-part-".toList "<!--stext-part-0-->".toList = 0
    ∧ View.contentPoints (HTML ["<!--stext-part-0-->".toList] []) 0 = 0
    ∧ contains "<!-".toList "<!--".toList = false
    ∧ contains "-stext-part-".toList "<!--".toList = false
    ∧ RenderToString
        (.value (.view (HTML ["<p>".toList, "</p>".toList]
          [.slice [.scalar "<!-".toList, .scalar "-stext-part-".toList]]))) Value.nil 0
      = .ok "<p><!--stext-part-0--><!--stext-part-<!--etext-part-0--></p>".toList 0
    ∧ countOcc "<!--stext-part-".toList
        "<p><!--stext-part-0--><!--stext-part-<!--etext-part-0--></p>".toList = 2
    ∧ countOcc "<!--etext-part-".toList
        "<p><!--stext-part-0--><!--stext-part-<!--etext-part-0--></p>".toList = 1
    ∧ View.contentPoints
        (HTML ["<p>".toList, "</p>".toList]
          [.slice [.scalar "<!-".toList, .scalar "-stext-part-".toList]]) 0 = 1 := by
  decide

/-- C15, amended: for every template tree built by `HTML` from scalars, nil, booleans,
reactive containers, factories, sequences and nested such Views, in which no literal
fragment and no scalar leaf holds the character `!`, `RenderToString` returns, and in its
output the number of start markers `<!--stext-part-` and the number of end markers
`<!--etext-part-` are both the number of interpolation points resolved in content
position, nested Views and sequence elements included. -/
theorem C15_marker_count_is_content_points (v : View) (hv : v.clean = true) (c : Nat) :
    ∃ html : Str,
      RenderToString (.value (.view v)) Value.nil c = .ok html c
      ∧ countOcc "<!--stext-part-".toList html = v.contentPoints 0
      ∧ countOcc "<!--etext-part-".toList html = v.contentPoints 0 := by
  obtain ⟨n, q, hn, hm⟩ := clean_marked.1 v hv 0
  refine ⟨n.HTML, ?_, hm.count.1, hm.count.2.1⟩
  rw [RenderToString_view, hn]

/-- Witness of C15 (amended) at a list template with an attribute and three content
positions. -/
theorem C15_marker_count_is_content_points_witness :
    ∃ html : Str,
      RenderToString
          (.value (.view (HTML ["<ul class=\"".toList, "\">".toList, "</ul>".toList]
            [.scalar "x".toList,
             .slice [.view (HTML ["<li>".toList, "</li>".toList] [.scalar "a".toList]),
                     .view (HTML ["<li>".toList, "</li>".toList] [.scalar "b".toList])]])))
          Value.nil 0 = .ok html 0
      ∧ countOcc "<!--stext-part-".toList html
          = View.contentPoints (HTML ["<ul class=\"".toList, "\">".toList, "</ul>".toList]
            [.scalar "x".toList,
             .slice [.view (HTML ["<li>".toList, "</li>".toList] [.scalar "a".toList]),
                     .view (HTML ["<li>".toList, "</li>".toList] [.scalar "b".toList])]]) 0
      ∧ countOcc "<!--etext-part-".toList html
          = View.contentPoints (HTML ["<ul class=\"".toList, "\">".toList, "</ul>".toList]
            [.scalar "x".toList,
             .slice [.view (HTML ["<li>".toList, "</li>".toList] [.scalar "a".toList]),
                     .view (HTML ["<li>".toList, "</li>".toList] [.scalar "b".toList])]]) 0 :=
  C15_marker_count_is_content_points
    (HTML ["<ul class=\"".toList, "\">".toList, "</ul>".toList]
      [.scalar "x".toList,
       .slice [.view (HTML ["<li>".toList, "</li>".toList] [.scalar "a".toList]),
               .view (HTML ["<li>".toList, "</li>".toList] [.scalar "b".toList])]])
    (by decide) 0

end SSR
